import Mathlib

/-
Verification development for the sourcetools repository (astoid.py, cnode.py,
codetree.py): a shallow embedding of the clause-graph builder, the block-grouper
transition logic, and the standalone successor/predecessor tree computations,
with theorems settling the frozen claims C1..C10.

Transcription notes (Python dynamic-binding details rendered statically):

* `Astoid.__init__` stores `self.type = (type(ast_node,clause))` (astoid.py:178).
  A two-argument `type(...)` call is a Python TypeError; every consumer of the
  field (the assertion at astoid.py:69, cnode.py:75 and cnode.py:140) treats it
  as the pair `(type(ast_node), clause)`, and the embedding uses that pair.
* The calls `Astoid(source_lines, node, parent, clause, homeroom)` at
  astoid.py:52, 110, 116, 122 and 128 omit the required `predecessor` argument
  (a Python TypeError, since the parameter has no default).  The embedding
  renders an omitted predecessor as "no predecessor" (`Link.nil`), the weakest
  completion: such a clause is created unlinked and the current tail's
  successor is left unassigned.  Claims about the linking of exactly these
  clauses fail under either reading; the affected call sites are marked below.
* `Astoid.__init__` reads `ast_node.lineno` (astoid.py:192); the embedding
  gives every syntax node an explicit `lineno` field (CPython's `ast.Module`
  has none, which is immaterial to the claims).
* Python's `...` (Ellipsis), used as the "not yet assigned" sentinel for
  `prev_sibling` / `next_sibling` / `successor` / `predecessor`, is embedded as
  `Link.unset`; Python `None` is `Link.nil`.  The `is not None` tests in the
  source are therefore `≠ Link.nil` tests, which the `unset` sentinel passes,
  exactly as Ellipsis passes `is not None`.
* `source_lines[lineno-1]` is embedded as `List.getD (lineno-1) ""` (claims
  never exercise an out-of-range line index), `str.lstrip()` as `lstripChars`
  and `str.startswith` as `startsWithChars` on character lists.
* Recursive functions over the syntax tree carry an explicit `fuel` bound on
  recursion depth, the analogue of Python's interpreter recursion limit;
  exhausting it is a RecursionError, and any fuel at least the tree height
  reproduces the source behaviour exactly.
* Fields irrelevant to every claim (`source_lines`, `col_offset`, and the
  pre-3.8 multiline-string `line_index` adjustment of astoid.py:194-199) are
  omitted.
-/

namespace Sourcetools

/-- Error-propagating sequencing, the embedding of "a raised exception aborts
construction": `eb x f` runs `f` on the value of `x` unless `x` raised. -/
def eb {α β : Type} (x : Except String α) (f : α → Except String β) : Except String β :=
  match x with
  | .error e => .error e
  | .ok a => f a

theorem eb_eq_ok {α β : Type} {x : Except String α} {f : α → Except String β} {b : β} :
    eb x f = .ok b ↔ ∃ a, x = .ok a ∧ f a = .ok b := by
  cases x <;> simp [eb]

theorem eb_ok {α β : Type} {x : Except String α} {f : α → Except String β} {a : α}
    (h : x = .ok a) : eb x f = f a := by
  subst h; rfl

/-- astoid.py:3-19, `iterate_with_siblings`: the loop state is the pair
(prev_sibling, curr_sibling), both starting as None. -/
def iws_loop {α : Type} (prev curr : Option α) : List α → List (Option α × α × Option α)
  | [] =>
    match curr with
    | none => []
    | some c => [(prev, c, none)]
  | next :: rest =>
    (match curr with
     | none => []
     | some c => [(prev, c, some next)]) ++ iws_loop curr (some next) rest

/-- astoid.py:3-19: yields triplets of an item with its adjacent siblings;
the first item's previous sibling and the last item's next sibling are None. -/
def iterate_with_siblings {α : Type} (iterable : List α) : List (Option α × α × Option α) :=
  iws_loop none none iterable

/-- Structural characterization of the loop once a current element exists. -/
def sibling_spec {α : Type} (prev : Option α) (c : α) : List α → List (Option α × α × Option α)
  | [] => [(prev, c, none)]
  | x :: rest => (prev, c, some x) :: sibling_spec (some c) x rest

theorem iws_loop_eq_spec {α : Type} (l : List α) :
    ∀ (prev : Option α) (c : α), iws_loop prev (some c) l = sibling_spec prev c l := by
  induction l with
  | nil => intro prev c; rfl
  | cons x rest ih =>
    intro prev c
    show (prev, c, some x) :: iws_loop (some c) (some x) rest = _
    rw [ih]
    rfl

theorem sibling_spec_length {α : Type} (l : List α) :
    ∀ (prev : Option α) (c : α), (sibling_spec prev c l).length = l.length + 1 := by
  induction l with
  | nil => intro prev c; rfl
  | cons x rest ih => intro prev c; simp [sibling_spec, ih]

theorem sibling_spec_get {α : Type} (l : List α) :
    ∀ (prev : Option α) (c : α) (i : Nat) (a : α), (c :: l)[i]? = some a →
      (sibling_spec prev c l)[i]? =
        some ((if i = 0 then prev else (c :: l)[i-1]?), a, l[i]?) := by
  induction l with
  | nil =>
    intro prev c i a ha
    match i with
    | 0 => simp at ha; subst ha; simp [sibling_spec]
    | Nat.succ j => simp at ha
  | cons x rest ih =>
    intro prev c i a ha
    match i with
    | 0 => simp at ha; subst ha; simp [sibling_spec]
    | Nat.succ j =>
      have ha' : (x :: rest)[j]? = some a := by simpa using ha
      have hih := ih (some c) x j a ha'
      have hstep : (sibling_spec prev c (x :: rest))[j + 1]? =
          (sibling_spec (some c) x rest)[j]? := by
        simp [sibling_spec]
      rw [hstep, hih]
      match j with
      | 0 => simp
      | Nat.succ k => simp

/-- C9: for every finite list, iterate_with_siblings yields exactly one triple
per list element in list order; the triple for the element at position i is
(element at i-1 or None if i = 0, element at i, element at i+1 or None at the
end); for the empty list it yields nothing. -/
theorem C9_iterate_with_siblings {α : Type} (l : List α) :
    (iterate_with_siblings l).length = l.length ∧
    ∀ (i : Nat) (a : α), l[i]? = some a →
      (iterate_with_siblings l)[i]? =
        some ((if i = 0 then none else l[i-1]?), a, l[i+1]?) := by
  match l with
  | [] =>
    refine ⟨rfl, ?_⟩
    intro i a ha
    simp at ha
  | x :: rest =>
    have hrw : iterate_with_siblings (x :: rest) = sibling_spec none x rest := by
      show iws_loop none (some x) rest = _
      exact iws_loop_eq_spec rest none x
    constructor
    · rw [hrw, sibling_spec_length]
      rfl
    · intro i a ha
      rw [hrw, sibling_spec_get rest none x i a ha]
      simp

/-- Witness for C9 at the concrete list [10, 20, 30]. -/
theorem C9_witness :
    (iterate_with_siblings [10, 20, 30]).length = 3 ∧
    (iterate_with_siblings [10, 20, 30])[1]? = some (some 10, 20, some 30) := by
  refine ⟨(C9_iterate_with_siblings [10, 20, 30]).1, ?_⟩
  have h := (C9_iterate_with_siblings [10, 20, 30]).2 1 20 (by decide)
  simpa using h

/-- astoid.py:21-26: the clause tags. -/
inductive CodeClause where
  | BODY
  | ELIF
  | ELSE
  | EXCEPT
  | FINALLY
deriving DecidableEq, Repr

/-- The discriminated kind of a syntax-tree node, standing in for Python's
`type(ast_node)`: the `ast` classes that `_parse` dispatches on, plus
`ExceptHandler` (wrapped by EXCEPT clauses) and `Stmt` for any non-compound
statement (the `else` branch of `_parse`). -/
inductive AstKind where
  | Module
  | FunctionDef
  | AsyncFunctionDef
  | ClassDef
  | With
  | AsyncWith
  | For
  | AsyncFor
  | While
  | If
  | Try
  | ExceptHandler
  | Stmt
deriving DecidableEq, Repr

/-- The syntax tree supplied by the external parser, restricted to the shape
`_parse` consumes: a container kind with a single body (Module, FunctionDef,
AsyncFunctionDef, ClassDef, With, AsyncWith — astoid.py:41), a loop kind with
body and orelse (For, AsyncFor, While — astoid.py:49), If with body and orelse
(astoid.py:63), Try with body, handlers (each an ExceptHandler carrying its
own lineno and body), orelse and finalbody (astoid.py:99), and a simple
(non-compound) statement (astoid.py:127).  Every node carries its 1-based
source line number, read by `Astoid.__init__` and by the elif text check. -/
inductive Ast where
  | container (kind : AstKind) (lineno : Nat) (body : List Ast)
  | loop (kind : AstKind) (lineno : Nat) (body : List Ast) (orelse : List Ast)
  | ifStmt (lineno : Nat) (body : List Ast) (orelse : List Ast)
  | tryStmt (lineno : Nat) (body : List Ast) (handlers : List (Nat × List Ast))
      (orelse : List Ast) (finalbody : List Ast)
  | simple (kind : AstKind) (lineno : Nat)

/-- A pointer-valued Astoid field: `unset` is Python's `...` (Ellipsis)
"not yet assigned" sentinel, `nil` is Python's None, `node i` is a reference
to the Astoid with arena index i. -/
inductive Link where
  | unset
  | nil
  | node (i : Nat)
deriving DecidableEq, Repr

/-- astoid.py:173-199, class Astoid: one clause node.  Astoid objects live in
an arena (`ParseSt.nodes`) and reference each other by index; `homeroom` is
the list the node was destined for (None = the root-level list, some i = the
children list of node i), matching the Python aliasing of `homeroom` with a
parent's `children` list. -/
structure Astoid where
  kind : AstKind
  clause : Option CodeClause
  parent : Option Nat
  homeroom : Option Nat
  children : List Nat
  prev_sibling : Link
  next_sibling : Link
  successor : Link
  predecessor : Link
  line_index : Nat
deriving DecidableEq, Repr

/-- astoid.py:178: `self.type`, the pair (type(ast_node), clause) as consumed
by the assertion at astoid.py:69 and by cnode.py. -/
def Astoid.type (a : Astoid) : AstKind × Option CodeClause := (a.kind, a.clause)

/-- The mutable construction state: the arena of Astoid objects (index =
creation order) and the root-level homeroom list created by `_parse` when
called without a homeroom. -/
structure ParseSt where
  nodes : List Astoid
  root_room : List Nat
deriving DecidableEq, Repr

def initSt : ParseSt := ⟨[], []⟩

def astoidDefault : Astoid :=
  ⟨.Stmt, none, none, none, [], .unset, .unset, .unset, .unset, 0⟩

/-- Dereference an arena index (indices produced by construction are always
in range; out-of-range reads return a blank node with all links unset). -/
def getA (st : ParseSt) (i : Nat) : Astoid := st.nodes.getD i astoidDefault

def modifyA (st : ParseSt) (i : Nat) (f : Astoid → Astoid) : ParseSt :=
  { st with nodes := st.nodes.set i (f (st.nodes.getD i astoidDefault)) }

def setSuccessor (st : ParseSt) (i : Nat) (l : Link) : ParseSt :=
  modifyA st i (fun a => { a with successor := l })

def setPredecessor (st : ParseSt) (i : Nat) (l : Link) : ParseSt :=
  modifyA st i (fun a => { a with predecessor := l })

/-- `homeroom.append(astoid)`: append index i to the root list or to the
aliased children list of the homeroom's owner. -/
def appendRoom (st : ParseSt) (room : Option Nat) (i : Nat) : ParseSt :=
  match room with
  | none => { st with root_room := st.root_room ++ [i] }
  | some j => modifyA st j (fun a => { a with children := a.children ++ [i] })

def linkOf : Option Nat → Link
  | none => .nil
  | some p => .node p

/-- astoid.py:174-192, `Astoid.__init__`: create a node with all four link
fields unset except `predecessor`, which is stored as passed; if the passed
predecessor is an object (`is not None`), commit its successor pointer to the
new node, unless it already has one — then raise 'Multiple successors'
(astoid.py:187-191).  A passed `unset` (Ellipsis) is an object without a
`successor` attribute: AttributeError.  Returns the new node's index. -/
def mkAstoid (st : ParseSt) (kind : AstKind) (clause : Option CodeClause)
    (parent : Option Nat) (room : Option Nat) (predecessor : Link) (lineno : Nat) :
    Except String (ParseSt × Nat) :=
  let i := st.nodes.length
  let a : Astoid :=
    ⟨kind, clause, parent, room, [], .unset, .unset, .unset, predecessor, lineno - 1⟩
  let st' : ParseSt := { st with nodes := st.nodes ++ [a] }
  match predecessor with
  | .nil => .ok (st', i)
  | .unset => .error "AttributeError: ellipsis has no attribute successor"
  | .node p =>
    if (getA st p).successor = .unset then
      .ok (setSuccessor st' p (.node i), i)
    else
      .error "Multiple successors"

/-- Python `str.lstrip()` on the character list of a line: drop leading
whitespace characters. -/
def lstripChars : List Char → List Char
  | [] => []
  | c :: cs =>
    if c = ' ' || c = '\t' || c = '\n' || c = '\r' then lstripChars cs else c :: cs

/-- Python `str.startswith`: prefix test on character lists. -/
def startsWithChars : List Char → List Char → Bool
  | _, [] => true
  | [], _ :: _ => false
  | a :: as', b :: bs => a = b && startsWithChars as' bs

/-- astoid.py:66: is the node's own first source line, stripped of leading
whitespace, spelled with the elif keyword? -/
def elifLine (lines : List String) (lineno : Nat) : Bool :=
  startsWithChars (lstripChars (lines.getD (lineno - 1) "").data) "elif".data

/-- astoid.py:47-48 and the analogous child loops: thread the tail
(`predecessor_astoid`) through a statement sequence, parsing each with the
supplied parser (used with `_parse` at one smaller recursion depth). -/
def _parseList
    (prs : Ast → Option Nat → Option Nat → Option Nat → ParseSt →
      Except String (ParseSt × Option Nat)) :
    List Ast → Option Nat → Option Nat → Option Nat → ParseSt →
      Except String (ParseSt × Option Nat)
  | [], _, _, predecessor_astoid, st => .ok (st, predecessor_astoid)
  | hd :: tl, parent_astoid, homeroom, predecessor_astoid, st =>
    eb (prs hd parent_astoid homeroom predecessor_astoid st) fun sp =>
      _parseList prs tl parent_astoid homeroom sp.2 sp.1

/-- astoid.py:107-114: one EXCEPT clause per non-empty handler, each a sibling
at the Try's level; astoid.py:110 omits the predecessor argument, so the
EXCEPT clause is created unlinked. -/
def _parseHandlers
    (prs : Ast → Option Nat → Option Nat → Option Nat → ParseSt →
      Except String (ParseSt × Option Nat)) :
    List (Nat × List Ast) → Option Nat → Option Nat → Option Nat → ParseSt →
      Except String (ParseSt × Option Nat)
  | [], _, _, predecessor_astoid, st => .ok (st, predecessor_astoid)
  | (hlineno, hbody) :: tl, parent_astoid, homeroom, predecessor_astoid, st =>
    eb (if hbody.isEmpty then .ok (st, predecessor_astoid)
        else
          eb (mkAstoid st .ExceptHandler (some .EXCEPT) parent_astoid homeroom
                .nil hlineno) fun si =>
            _parseList prs hbody (some si.2) (some si.2) (some si.2)
              (appendRoom si.1 homeroom si.2)) fun sp =>
      _parseHandlers prs tl parent_astoid homeroom sp.2 sp.1

/-- astoid.py:35-132, `_parse`: the clause builder.  Parameters mirror the
Python signature: the raw source lines, the syntax node, the parent Astoid,
the homeroom (None = the root-level list) and the current tail
(`predecessor_astoid`); returns the updated state and the new tail.  The
extra `fuel` argument bounds the recursion depth exactly as Python's
interpreter recursion limit does; exhausting it is a RecursionError, and any
fuel at least the syntax tree's height gives the exact behaviour.
The call sites that omit the required `predecessor` argument in the source
(astoid.py:52, 110, 116, 122, 128 — a Python TypeError) are embedded as
passing `Link.nil` (no predecessor) and are marked with comments. -/
def _parse (lines : List String) :
    Nat → Ast → Option Nat → Option Nat → Option Nat → ParseSt →
      Except String (ParseSt × Option Nat)
  | 0, _, _, _, _, _ => .error "RecursionError: maximum recursion depth exceeded"
  | fuel + 1, a, parent_astoid, homeroom, predecessor_astoid, st =>
    match a with
    | .container kind lineno body =>
      -- astoid.py:41-48: body only
      if body.isEmpty then .ok (st, predecessor_astoid)
      else
        eb (mkAstoid st kind (some .BODY) parent_astoid homeroom
              (linkOf predecessor_astoid) lineno) fun si =>
          _parseList (_parse lines fuel) body (some si.2) (some si.2) (some si.2)
            (appendRoom si.1 homeroom si.2)
    | .loop kind lineno body orelse =>
      -- astoid.py:49-62: body and orelse
      eb (if body.isEmpty then .ok (st, predecessor_astoid)
          else
            -- astoid.py:52 omits the predecessor argument: the BODY clause is
            -- created unlinked and the current tail keeps an unset successor
            eb (mkAstoid st kind (some .BODY) parent_astoid homeroom .nil lineno)
              fun si =>
                _parseList (_parse lines fuel) body (some si.2) (some si.2)
                  (some si.2) (appendRoom si.1 homeroom si.2)) fun sp =>
        if orelse.isEmpty then .ok sp
        else
          eb (mkAstoid sp.1 kind (some .ELSE) parent_astoid homeroom
                (linkOf sp.2) lineno) fun si =>
            _parseList (_parse lines fuel) orelse (some si.2) (some si.2)
              (some si.2) (appendRoom si.1 homeroom si.2)
    | .ifStmt lineno body orelse =>
      -- astoid.py:63-98: body and orelse, special handling for elif
      eb (if body.isEmpty then .ok (st, parent_astoid, homeroom, predecessor_astoid)
          else
            if elifLine lines lineno then
              -- astoid.py:66-78: elevate self to the parent's level, which is
              -- an (ast.If, ELSE) astoid, and cut in front of it: the homeroom
              -- and parent become the parent ELSE astoid's own, the new ELIF
              -- clause takes over the ELSE astoid's predecessor, and the ELSE
              -- astoid's predecessor is reset to the unset sentinel
              match parent_astoid with
              | none => .error "AttributeError: NoneType has no attribute type"
              | some pe =>
                if (getA st pe).type = (AstKind.If, some CodeClause.ELSE) then
                  eb (mkAstoid st .If (some .ELIF) (getA st pe).parent
                        (getA st pe).homeroom (getA st pe).predecessor lineno)
                    fun si =>
                      eb (_parseList (_parse lines fuel) body (some si.2)
                            (some si.2) (some si.2)
                            (appendRoom (setPredecessor si.1 pe .unset)
                              (getA st pe).homeroom si.2)) fun sp =>
                        .ok (sp.1, (getA st pe).parent, (getA st pe).homeroom, sp.2)
                else .error "AssertionError"
            else
              eb (mkAstoid st .If (some .BODY) parent_astoid homeroom
                    (linkOf predecessor_astoid) lineno) fun si =>
                eb (_parseList (_parse lines fuel) body (some si.2) (some si.2)
                      (some si.2) (appendRoom si.1 homeroom si.2)) fun sp =>
                  .ok (sp.1, parent_astoid, homeroom, sp.2)) fun spr =>
        if orelse.isEmpty then .ok (spr.1, spr.2.2.2)
        else
          -- astoid.py:85-98: the would-be ELSE clause commits the tail's
          -- successor at its construction; it is appended only if it acquired
          -- children, and its predecessor is re-assigned (and the tail's
          -- successor overwritten, unchecked) if an elif promotion unset it
          eb (mkAstoid spr.1 .If (some .ELSE) spr.2.1 spr.2.2.1
                (linkOf spr.2.2.2) lineno) fun si =>
            eb (_parseList (_parse lines fuel) orelse (some si.2) (some si.2)
                  (some si.2) si.1) fun sp =>
              if (getA sp.1 si.2).children.length > 0 then
                eb (if (getA sp.1 si.2).predecessor = .unset then
                      match sp.2 with
                      | none =>
                        .error "AttributeError: NoneType has no attribute successor"
                      | some t =>
                        .ok (setSuccessor (setPredecessor sp.1 si.2 (linkOf sp.2)) t
                              (.node si.2))
                    else .ok sp.1) fun st8 =>
                  .ok (appendRoom st8 spr.2.2.1 si.2, sp.2)
              else .ok sp
    | .tryStmt lineno body handlers orelse finalbody =>
      -- astoid.py:99-126: body, excepthandlers, orelse, finalbody
      eb (if body.isEmpty then .ok (st, predecessor_astoid)
          else
            eb (mkAstoid st .Try (some .BODY) parent_astoid homeroom
                  (linkOf predecessor_astoid) lineno) fun si =>
              _parseList (_parse lines fuel) body (some si.2) (some si.2)
                (some si.2) (appendRoom si.1 homeroom si.2)) fun sp2 =>
        eb (_parseHandlers (_parse lines fuel) handlers parent_astoid homeroom
              sp2.2 sp2.1) fun sp3 =>
          eb (if orelse.isEmpty then .ok sp3
              else
                -- astoid.py:116 omits the predecessor argument
                eb (mkAstoid sp3.1 .Try (some .ELSE) parent_astoid homeroom
                      .nil lineno) fun si =>
                  _parseList (_parse lines fuel) orelse (some si.2) (some si.2)
                    (some si.2) (appendRoom si.1 homeroom si.2)) fun sp5 =>
            if finalbody.isEmpty then .ok sp5
            else
              -- astoid.py:122 omits the predecessor argument
              eb (mkAstoid sp5.1 .Try (some .FINALLY) parent_astoid homeroom
                    .nil lineno) fun si =>
                _parseList (_parse lines fuel) finalbody (some si.2) (some si.2)
                  (some si.2) (appendRoom si.1 homeroom si.2)
    | .simple kind lineno =>
      -- astoid.py:127-130; astoid.py:128 omits the predecessor argument, so
      -- every non-compound statement clause is created unlinked
      eb (mkAstoid st kind none parent_astoid homeroom .nil lineno) fun si =>
        .ok (appendRoom si.1 homeroom si.2, some si.2)

/-- astoid.py:31-32 of `parse`: run the clause builder from the root with no
parent, no homeroom (fresh root list) and no predecessor, then assign None to
the final tail's successor (a direct, unchecked assignment; if the builder
produced no clause at all, `None.successor = None` is an AttributeError). -/
def build_graph (fuel : Nat) (lines : List String) (a : Ast) : Except String ParseSt :=
  eb (_parse lines fuel a none none none initSt) fun sp =>
    match sp.2 with
    | none => .error "AttributeError: NoneType has no attribute successor"
    | some t => .ok (setSuccessor sp.1 t .nil)

/-- astoid.py:28-34, `parse`: after building the graph, line 33 calls
`introduce_siblings(ast_node)` on the syntax-tree node itself — which has no
`children` attribute — and line 34 would return the syntax-tree node, not the
root Clause Node (the root Astoid is never retained; `_parse` returns the
tail).  The embedding surfaces the line-33 AttributeError. -/
def parse (fuel : Nat) (lines : List String) (a : Ast) : Except String ParseSt :=
  eb (build_graph fuel lines a) fun _st =>
    .error "AttributeError: ast node object has no attribute children"

/-- astoid.py:206-209, `Astoid.walk`: pre-order depth-first traversal (self,
then each child recursively), fuel-bounded for arena traversal (any fuel at
least the node count is exact). -/
def walkF : Nat → ParseSt → Nat → List Nat
  | 0, _, _ => []
  | fuel + 1, st, i =>
    i :: (getA st i).children.foldl (fun acc c => acc ++ walkF fuel st c) []

/-- Follow successor links starting at a node, collecting visited nodes until
the successor is no longer an object reference (None ends the chain normally;
an unset sentinel means the chain was never completed), fuel-bounded. -/
def chainF : Nat → ParseSt → Nat → List Nat
  | 0, _, _ => []
  | fuel + 1, st, i =>
    i :: (match (getA st i).successor with
          | .node j => chainF fuel st j
          | _ => [])

/- Concrete inputs used to evaluate the clause builder.  Each is a source
snippet (its lines) together with the syntax tree the external parser yields
for it. -/

/-- Source `x = 1`: a module whose body is one simple statement. -/
def ex1Lines : List String := ["x = 1"]

def ex1Ast : Ast := .container .Module 1 [.simple .Stmt 1]

/-- Source `if a: / x / elif b: / y`: a conditional whose alternate branch is
one cascaded conditional spelled with the elif keyword on line 3. -/
def ex2Lines : List String := ["if a:", "    x", "elif b:", "    y"]

def ex2Ast : Ast := .container .Module 1
  [.ifStmt 1 [.simple .Stmt 2] [.ifStmt 3 [.simple .Stmt 4] []]]

/-- Source `z = 1 / if a: / x / elif b: / y`: a leading statement followed by
a conditional whose alternate branch is only a cascaded conditional (no
trailing genuine else). -/
def ex4Lines : List String := ["z = 1", "if a:", "    x", "elif b:", "    y"]

def ex4Ast : Ast := .container .Module 1
  [.simple .Stmt 1, .ifStmt 2 [.simple .Stmt 3] [.ifStmt 4 [.simple .Stmt 5] []]]

/-- Source `for i in r: / x / else: / y`: an iteration construct with a
non-empty body and a non-empty exhaustion branch. -/
def ex5Lines : List String := ["for i in r:", "    x", "else:", "    y"]

def ex5Ast : Ast := .container .Module 1
  [.loop .For 1 [.simple .Stmt 2] [.simple .Stmt 4]]

/-- Source `try: / a / except E: / b / else: / c / finally: / d`: an
exception-protected region with all four parts non-empty. -/
def ex6Lines : List String :=
  ["try:", "    a", "except E:", "    b", "else:", "    c", "finally:", "    d"]

def ex6Ast : Ast := .container .Module 1
  [.tryStmt 1 [.simple .Stmt 2] [(3, [.simple .Stmt 4])]
    [.simple .Stmt 6] [.simple .Stmt 8]]

/-- C1: the claim says the successor chain from the first clause node visits
every clause node exactly once and equals the walk (pre-order) traversal.
On the module `x = 1` the builder succeeds, but the simple-statement clause is
created without the predecessor argument (astoid.py:128), so the module Body
clause's successor is never assigned: following successor links from the
first clause node (index 0) visits only [0], while the walk traversal visits
[0, 1].  The chain neither visits every node nor equals the walk order. -/
theorem C1_chain_misses_nodes :
    (build_graph 8 ex1Lines ex1Ast).toOption.map (fun st => (chainF 8 st 0, walkF 8 st 0))
      = some ([0], [0, 1]) := rfl

/-- C2: the claim says the cascaded-conditional promotion completes without an
invariant-violation error.  On `if a: x elif b: y` the outer conditional's
would-be ELSE clause commits the tail's successor pointer at its own
construction (astoid.py:86), so when the promoted ELIF clause is constructed
with that same predecessor (astoid.py:75-76), `Astoid.__init__` finds the
successor already assigned and raises 'Multiple successors' — despite the
comment on astoid.py:76 claiming the constructor overwrites it. -/
theorem C2_promotion_raises :
    build_graph 8 ex2Lines ex2Ast = .error "Multiple successors" := rfl

/-- C4: the claim says a conditional whose alternate branch is only cascaded
conditionals yields no ElseBranch clause at its level (the conditional append
of astoid.py:93-98).  Construction never reaches that check: parsing the
cascaded alternate raises 'Multiple successors' (see C2), so no clause list
is produced at all for such inputs. -/
theorem C4_else_omission_unreachable :
    build_graph 8 ex4Lines ex4Ast = .error "Multiple successors" := rfl

/-- C5: the claim says an iteration construct emits Body/ElseBranch clauses
iff the corresponding branches are non-empty (which holds here: the module
level contains exactly [BODY, ELSE] for the loop) and that each emitted
clause receives the current tail as its predecessor.  The latter fails: the
Body clause is created without the predecessor argument (astoid.py:52), so
its predecessor is None and the module Body clause (the current tail, index
0) keeps an unset successor. -/
theorem C5_loop_body_unlinked :
    (build_graph 8 ex5Lines ex5Ast).toOption.map (fun st =>
      ((getA st 0).children.map (fun i => (getA st i).clause),
       (getA st 1).predecessor, (getA st 0).successor))
      = some ([some .BODY, some .ELSE], .nil, .unset) := rfl

/-- C6: the claim says a try construct emits Body, then one EXCEPT per
non-empty handler, then ELSE, then FINALLY (which holds here: the clause list
at the try's level is exactly that sequence), each linked into the linear
order at creation.  The linking fails: the EXCEPT clause (astoid.py:110) —
like the try-level ELSE (astoid.py:116) and FINALLY (astoid.py:122) — is
created without the predecessor argument, so its predecessor is None and the
protected body's last clause (index 2, the current tail) keeps an unset
successor. -/
theorem C6_handler_unlinked :
    (build_graph 8 ex6Lines ex6Ast).toOption.map (fun st =>
      ((getA st 0).children.map (fun i => (getA st i).clause),
       (getA st 3).predecessor, (getA st 2).successor))
      = some ([some .BODY, some .EXCEPT, some .ELSE, some .FINALLY], .nil, .unset) := rfl

/-- C7: the claim says parse returns the root Clause Node of a fully linked
clause graph with sibling links set.  The source's `parse` (astoid.py:28-34)
calls `introduce_siblings(ast_node)` on the syntax-tree node — which has no
clause children — so parse raises instead of returning; moreover its return
statement yields the syntax-tree node, and the root Astoid is never retained
(`_parse` returns the final tail, astoid.py:132). -/
theorem C7_parse_raises :
    parse 8 ex1Lines ex1Ast =
      .error "AttributeError: ast node object has no attribute children" := rfl

/-- cnode.py:49-53: the states of the block-grouping state machine. -/
inductive ParseState where
  | NEWBLOCK
  | BUILD
  | ENDBLOCK
  | DONE
deriving DecidableEq, Repr

/-- The loop-carried variables of cnode.py's `parse` (cnode.py:55-115) that
the transition-resolution block (cnode.py:96-113) reads and writes: the
explicit stack of open Cnodes, a parent table for the constructed Cnodes
(`Cnode.parent`, cnode.py:118-119), the current Cnode, the current parent,
the consumed-flag `get_next`, and whether a clause (astoid) is currently in
hand, unconsumed.  Cnodes are referenced by index; the stack holds the
`cnode` variable's value at push time (an object or None). -/
structure GrouperState where
  stack : List (Option Nat)
  parents : List (Option Nat)
  cnode : Option Nat
  parent_cnode : Option Nat
  get_next : Bool
  astoid_in_hand : Bool
deriving DecidableEq, Repr

/-- cnode.py:96-113: resolve the state transition chosen by the current
iteration.  NEWBLOCK pushes the current Cnode on the stack and makes it the
parent; ENDBLOCK with a non-empty stack pops, restores the popped Cnode as
current (its parent as the current parent), marks the clause unconsumed
(`get_next = False`) and retries in BUILD; ENDBLOCK with an empty stack
transitions straight to DONE — whether or not a clause remains in hand.
Popping a None entry would dereference `None.parent` (AttributeError).
The final `else: raise Exception('Invalid state transition: ...')` of
cnode.py:112-113 is unreachable: the matched value is always one of the four
enum members. -/
def resolve_transition (g : GrouperState) (next_state : ParseState) :
    Except String (GrouperState × ParseState) :=
  match next_state with
  | .NEWBLOCK =>
    .ok (⟨g.stack ++ [g.cnode], g.parents, none, g.cnode,
          g.get_next, g.astoid_in_hand⟩, .NEWBLOCK)
  | .ENDBLOCK =>
    if g.stack.length > 0 then
      match g.stack.getLast? with
      | some (some c) =>
        .ok (⟨g.stack.dropLast, g.parents, some c, g.parents.getD c none,
              false, g.astoid_in_hand⟩, .BUILD)
      | some none => .error "AttributeError: NoneType has no attribute parent"
      | none => .error "unreachable: non-empty stack has a last element"
    else .ok (g, .DONE)
  | .BUILD => .ok (g, .BUILD)
  | .DONE => .ok (g, .DONE)

/-- C8 counterexample: the claim says that an end-of-block processed with an
empty block stack while a clause remains unconsumed aborts with a fatal
invariant violation rather than terminating normally.  In the code
(cnode.py:100-107) the ENDBLOCK arm's else branch sets the next state to
DONE without raising and without consulting the clause in hand: here a clause
remains (`astoid_in_hand = true`), the stack is empty, and the machine
terminates normally in DONE. -/
theorem C8_counterexample :
    resolve_transition ⟨[], [], none, none, true, true⟩ ParseState.ENDBLOCK
      = .ok (⟨[], [], none, none, true, true⟩, ParseState.DONE) := rfl

/-- C8 (amended): when an ENDBLOCK transition is resolved with an empty block
stack, the grouper transitions to DONE and terminates normally — no error is
raised and the state is untouched, regardless of whether a clause remains
unconsumed. -/
theorem C8_endblock_empty_stack_done (g : GrouperState) (h : g.stack = []) :
    resolve_transition g ParseState.ENDBLOCK = .ok (g, ParseState.DONE) := by
  simp [resolve_transition, h]

/-- Witness for the amended C8 at a concrete state with a clause in hand. -/
theorem C8_witness :
    resolve_transition ⟨[], [some 1], some 0, none, true, true⟩ ParseState.ENDBLOCK
      = .ok (⟨[], [some 1], some 0, none, true, true⟩, ParseState.DONE) :=
  C8_endblock_empty_stack_done ⟨[], [some 1], some 0, none, true, true⟩ rfl

/- Model for C10 (astoid.py:134-170).  `determine_successor` and
`determine_predecessor` read only the tree structure of a clause graph:
`children`, `parent`, `prev_sibling` and `next_sibling`.  A clause tree is
therefore modelled as a rose tree, and a node is addressed by its position:
the list of child indices from the node up to the root, innermost index
first (the root is `[]`, child i of the node at p is `i :: p`). -/

mutual
inductive RT where
  | mk (children : RTL)
inductive RTL where
  | nil
  | cons (hd : RT) (tl : RTL)
end

def RT.children : RT → RTL
  | .mk cs => cs

def RTL.length : RTL → Nat
  | .nil => 0
  | .cons _ tl => tl.length + 1

def RTL.get? : RTL → Nat → Option RT
  | .nil, _ => none
  | .cons hd _, 0 => some hd
  | .cons _ tl, n + 1 => tl.get? n

def RTL.getLast? : RTL → Option RT
  | .nil => none
  | .cons hd .nil => some hd
  | .cons _ (.cons h2 t2) => RTL.getLast? (.cons h2 t2)

mutual
def RT.size : RT → Nat
  | .mk cs => 1 + RTL.size cs
def RTL.size : RTL → Nat
  | .nil => 0
  | .cons hd tl => RT.size hd + RTL.size tl
end

/-- The subtree of `t` at a position (innermost-first path); `none` for
positions not present in the tree. -/
def subAt (t : RT) : List Nat → Option RT
  | [] => some t
  | i :: r => (subAt t r).bind (fun u => u.children.get? i)

/-- A position-valued sibling/successor/predecessor value in the rose-tree
model: `unset` is the Ellipsis sentinel, `nil` is None, `node p` references
the node at position p. -/
inductive PLink where
  | unset
  | nil
  | node (p : List Nat)
deriving DecidableEq, Repr

/-- The `prev_sibling` field value after `introduce_siblings` (astoid.py:
134-138): the root's field is never initialized and keeps the unset sentinel;
a first child gets None; any other child gets its left neighbour. -/
def prev_sibling_link : List Nat → PLink
  | [] => .unset
  | 0 :: _ => .nil
  | (i + 1) :: r => .node (i :: r)

/-- The `next_sibling` field value after `introduce_siblings`: the root keeps
the unset sentinel; a child gets its right neighbour, or None if it is the
last of its parent's children list. -/
def next_sibling_link (t : RT) : List Nat → PLink
  | [] => .unset
  | i :: r =>
    match subAt t r with
    | none => .unset
    | some u => if i + 1 < u.children.length then .node ((i + 1) :: r) else .nil

/-- astoid.py:149-157: the ancestor walk of `determine_successor`, on the
reversed path of the starting ancestor.  Each ancestor whose `next_sibling`
passes `is not None` (which the root's unset sentinel does) ends the walk
with that value; running past a detached root would assign None. -/
def anc_next (t : RT) : List Nat → PLink
  | [] => if next_sibling_link t [] ≠ .nil then next_sibling_link t [] else .nil
  | i :: r =>
    if next_sibling_link t (i :: r) ≠ .nil then next_sibling_link t (i :: r)
    else anc_next t r

/-- astoid.py:140-157, `determine_successor`: the successor value the
recursion assigns to the node at position p (the recursion over children only
orders the assignments; each node's value is independent): the first child if
there are children, else the next sibling if it passes `is not None` (the
root's unset sentinel does, so a childless root is assigned the sentinel),
else the ancestor walk. -/
def determine_successor_value (t : RT) (p : List Nat) : PLink :=
  match subAt t p with
  | none => .unset
  | some u =>
    if u.children.length > 0 then .node (0 :: p)
    else if next_sibling_link t p ≠ .nil then next_sibling_link t p
    else anc_next t p.tail

/-- Bump the last entry of a path: the relative deepest-last-descendant path
of a node whose children list grew by one on the left. -/
def incLast : List Nat → List Nat
  | [] => []
  | [i] => [i + 1]
  | x :: y :: r => x :: incLast (y :: r)

mutual
/-- astoid.py:163-164: the relative (innermost-first) path from a node to its
deepest last descendant — the `while len(target.children) > 0: target =
target.children[-1]` descent; `[]` for a childless node (the node itself). -/
def dld_rel : RT → List Nat
  | .mk cs => dld_rel_list cs
def dld_rel_list : RTL → List Nat
  | .nil => []
  | .cons hd .nil => dld_rel hd ++ [0]
  | .cons _ (.cons h2 t2) => incLast (dld_rel_list (.cons h2 t2))
end

/-- Position of the deepest last descendant of the node at a position. -/
def dld_pos (t : RT) (a : List Nat) : Option (List Nat) :=
  (subAt t a).map (fun u => dld_rel u ++ a)

/-- astoid.py:158-170, `determine_predecessor`: the predecessor value for the
node at position q.  If `prev_sibling` passes `is not None` — which the
root's unset Ellipsis sentinel does — the target descent reads
`target.children`, an AttributeError on the sentinel; a real previous sibling
yields its deepest last descendant; a first child yields its parent; a
detached root with neither would yield None. -/
def determine_predecessor_value (t : RT) (q : List Nat) : Except String PLink :=
  match prev_sibling_link q with
  | .unset => .error "AttributeError: ellipsis has no attribute children"
  | .node a => .ok (.node ((dld_pos t a).getD a))
  | .nil =>
    match q with
    | [] => .ok .nil
    | _ :: r => .ok (.node r)

/-- Process a children list for the predecessor run: recurse into each child
(child i of the node at p sits at position i :: p). -/
def dpr_list (run : RT → List Nat → Except String (List (List Nat × PLink))) :
    RTL → Nat → List Nat → Except String (List (List Nat × PLink))
  | .nil, _, _ => .ok []
  | .cons hd tl, i, p =>
    eb (run hd (i :: p)) fun xs =>
      eb (dpr_list run tl (i + 1) p) fun ys => .ok (xs ++ ys)

/-- astoid.py:158-170 run as written: children first, then the node's own
predecessor computation (fuel bounds recursion depth as in `_parse`). -/
def dpr (t : RT) : Nat → RT → List Nat → Except String (List (List Nat × PLink))
  | 0, _, _ => .error "RecursionError: maximum recursion depth exceeded"
  | fuel + 1, u, p =>
    eb (dpr_list (dpr t fuel) u.children 0 p) fun xs =>
      match determine_predecessor_value t p with
      | .error e => .error e
      | .ok l => .ok (xs ++ [(p, l)])

/-- Running `determine_predecessor` from the root of a clause tree whose
sibling links were set by `introduce_siblings`. -/
def determine_predecessor_run (fuel : Nat) (t : RT) :
    Except String (List (List Nat × PLink)) :=
  dpr t fuel t []

/-- C10 counterexample: the claim speaks of the state after running
`determine_predecessor` from the root, but that run never completes:
`introduce_siblings` leaves the root's own `prev_sibling` as the unset
Ellipsis sentinel, which passes the `is not None` test of astoid.py:161, and
the descent then reads `.children` of the sentinel — an AttributeError — on
every tree, here a root with one child. -/
theorem C10_counterexample :
    determine_predecessor_run 4 (.mk (.cons (.mk .nil) .nil))
      = .error "AttributeError: ellipsis has no attribute children" := rfl

theorem RT.children_mk (cs : RTL) : (RT.mk cs).children = cs := rfl

theorem RTL.length_eq_zero : ∀ (cs : RTL), cs.length = 0 ↔ cs = .nil
  | .nil => by simp [RTL.length]
  | .cons hd tl => by simp [RTL.length]

theorem RTL.get?_lt_length : ∀ (cs : RTL) (i : Nat) (u : RT),
    cs.get? i = some u → i < cs.length
  | .nil, i, u, h => by simp [RTL.get?] at h
  | .cons hd tl, 0, u, _ => by simp [RTL.length]
  | .cons hd tl, i + 1, u, h => by
    have := RTL.get?_lt_length tl i u h
    simp [RTL.length]; omega

theorem RTL.get?_isSome_of_lt : ∀ (cs : RTL) (i : Nat), i < cs.length →
    ∃ u, cs.get? i = some u
  | .nil, i, h => by simp [RTL.length] at h
  | .cons hd tl, 0, _ => ⟨hd, rfl⟩
  | .cons hd tl, i + 1, h => by
    have : i < tl.length := by simp [RTL.length] at h; omega
    exact RTL.get?_isSome_of_lt tl i this

theorem RTL.getLast?_eq_get? : ∀ (cs : RTL), cs.getLast? = cs.get? (cs.length - 1)
  | .nil => rfl
  | .cons hd .nil => rfl
  | .cons hd (.cons h2 t2) => by
    have ih := RTL.getLast?_eq_get? (.cons h2 t2)
    show RTL.getLast? (.cons h2 t2) = _
    rw [ih]
    show RTL.get? (.cons h2 t2) ((RTL.cons h2 t2).length - 1) = _
    have h1 : (RTL.cons h2 t2).length - 1 = t2.length := by simp [RTL.length]
    have h2' : (RTL.cons hd (RTL.cons h2 t2)).length - 1 = t2.length + 1 := by
      simp [RTL.length]
    rw [h1, h2']
    rfl

theorem RT.size_pos : ∀ (u : RT), 1 ≤ u.size
  | .mk cs => by show 1 ≤ 1 + RTL.size cs; omega

theorem RTL.size_get? : ∀ (cs : RTL) (i : Nat) (u : RT),
    cs.get? i = some u → RT.size u ≤ RTL.size cs
  | .nil, i, u, h => by simp [RTL.get?] at h
  | .cons hd tl, 0, u, h => by
    have hu : hd = u := by simpa [RTL.get?] using h
    subst hu
    show RT.size hd ≤ RT.size hd + RTL.size tl
    omega
  | .cons hd tl, i + 1, u, h => by
    have := RTL.size_get? tl i u h
    show RT.size u ≤ RT.size hd + RTL.size tl
    have := RT.size_pos hd
    omega

theorem subAt_append (t : RT) : ∀ (x a : List Nat),
    subAt t (x ++ a) = (subAt t a).bind (fun u => subAt u x)
  | [], a => by
    show subAt t a = _
    cases subAt t a <;> rfl
  | i :: x', a => by
    show (subAt t (x' ++ a)).bind (fun u => u.children.get? i) = _
    rw [subAt_append t x' a]
    cases subAt t a with
    | none => rfl
    | some u =>
      show (subAt u x').bind _ = Option.bind (some u) _
      rfl

theorem incLast_append : ∀ (xs : List Nat) (i : Nat), incLast (xs ++ [i]) = xs ++ [i + 1]
  | [], i => rfl
  | x :: xs', i => by
    cases h : xs' ++ [i] with
    | nil => exact absurd h (by simp)
    | cons y r =>
      show incLast (x :: (xs' ++ [i])) = _
      rw [h]
      show x :: incLast (y :: r) = _
      rw [← h, incLast_append xs' i]
      rfl

theorem dld_rel_eq_list : ∀ (u : RT), dld_rel u = dld_rel_list u.children
  | .mk _ => rfl

theorem dld_rel_list_concat : ∀ (cs : RTL), cs ≠ .nil →
    ∃ w, cs.getLast? = some w ∧ dld_rel_list cs = dld_rel w ++ [cs.length - 1]
  | .nil, h => absurd rfl h
  | .cons hd .nil, _ => ⟨hd, rfl, by simp [dld_rel_list, RTL.length]⟩
  | .cons hd (.cons h2 t2), _ => by
    obtain ⟨w, hw1, hw2⟩ := dld_rel_list_concat (.cons h2 t2) (by intro h; cases h)
    refine ⟨w, ?_, ?_⟩
    · show RTL.getLast? (.cons h2 t2) = some w
      exact hw1
    · show incLast (dld_rel_list (.cons h2 t2)) = _
      rw [hw2, incLast_append]
      have h1 : (RTL.cons h2 t2).length - 1 + 1 = (RTL.cons hd (RTL.cons h2 t2)).length - 1 := by
        simp [RTL.length]
      rw [h1]

theorem nsl_nil (t : RT) : next_sibling_link t [] = .unset := rfl

theorem nsl_cons (t : RT) (i : Nat) (r : List Nat) :
    next_sibling_link t (i :: r) =
      match subAt t r with
      | none => .unset
      | some u => if i + 1 < u.children.length then .node ((i + 1) :: r) else .nil := rfl

theorem anc_next_nil (t : RT) : anc_next t [] = .unset := rfl

theorem anc_next_cons (t : RT) (i : Nat) (r : List Nat) :
    anc_next t (i :: r) =
      if next_sibling_link t (i :: r) ≠ .nil then next_sibling_link t (i :: r)
      else anc_next t r := rfl

theorem dpv_root (t : RT) :
    determine_predecessor_value t []
      = .error "AttributeError: ellipsis has no attribute children" := rfl

theorem dpv_first_child (t : RT) (r : List Nat) :
    determine_predecessor_value t (0 :: r) = .ok (.node r) := rfl

theorem dpv_later_child (t : RT) (j : Nat) (r : List Nat) :
    determine_predecessor_value t ((j + 1) :: r)
      = .ok (.node ((dld_pos t (j :: r)).getD (j :: r))) := rfl

theorem dsv_eq (t : RT) (p : List Nat) (u : RT) (hp : subAt t p = some u) :
    determine_successor_value t p =
      if u.children.length > 0 then .node (0 :: p)
      else if next_sibling_link t p ≠ .nil then next_sibling_link t p
      else anc_next t p.tail := by
  unfold determine_successor_value
  rw [hp]

theorem subAt_cons (t : RT) (i : Nat) (r : List Nat) :
    subAt t (i :: r) = (subAt t r).bind (fun u => u.children.get? i) := rfl

/-- Stepping the deepest-last-descendant position up one level: if the node at
j :: r' is the last child of its parent (its next_sibling is None), then the
parent's deepest-last-descendant descent passes through it. -/
theorem dld_pos_step (t : RT) (j : Nat) (r' : List Nat) (v : RT)
    (hv : subAt t (j :: r') = some v)
    (hn : next_sibling_link t (j :: r') = .nil) :
    dld_pos t r' = dld_pos t (j :: r') := by
  have hb : (subAt t r').bind (fun u => u.children.get? j) = some v := hv
  cases hp : subAt t r' with
  | none => rw [hp] at hb; simp at hb
  | some vp =>
    rw [hp] at hb
    simp at hb
    have hlt : j < vp.children.length := RTL.get?_lt_length _ j v hb
    have hge : ¬ (j + 1 < vp.children.length) := by
      intro hcon
      rw [nsl_cons, hp] at hn
      simp [hcon] at hn
    have hlast : j = vp.children.length - 1 := by omega
    have hne : vp.children ≠ .nil := by
      intro hcon
      rw [hcon] at hlt
      simp [RTL.length] at hlt
    obtain ⟨w, hw1, hw2⟩ := dld_rel_list_concat vp.children hne
    have hwv : w = v := by
      rw [RTL.getLast?_eq_get?, ← hlast, hb] at hw1
      exact (Option.some_inj.mp hw1).symm
    subst hwv
    unfold dld_pos
    rw [hp, hv]
    simp only [Option.map]
    rw [dld_rel_eq_list vp, hw2, ← hlast]
    simp

/-- astoid.py:149-157 meets astoid.py:163-164: if the ancestor walk from a
position r (whose deepest last descendant is p) finds a next sibling q, then
the predecessor computation at q descends back exactly to p. -/
theorem anc_next_pred (t : RT) : ∀ (r p q : List Nat) (v : RT),
    subAt t r = some v → dld_pos t r = some p → anc_next t r = .node q →
    determine_predecessor_value t q = .ok (.node p)
  | [], p, q, v, _, _, ha => by
    rw [anc_next_nil] at ha
    cases ha
  | j :: r', p, q, v, hv, hd, ha => by
    by_cases hn : next_sibling_link t (j :: r') = .nil
    · have ha' : anc_next t r' = .node q := by
        rw [anc_next_cons, hn] at ha
        simpa using ha
      have hb : (subAt t r').bind (fun u => u.children.get? j) = some v := hv
      cases hp : subAt t r' with
      | none => rw [hp] at hb; simp at hb
      | some vp =>
        have hd' : dld_pos t r' = some p := by
          rw [dld_pos_step t j r' v hv hn]
          exact hd
        exact anc_next_pred t r' p q vp hp hd' ha'
    · have heq : next_sibling_link t (j :: r') = .node q := by
        rw [anc_next_cons] at ha
        simp [hn] at ha
        exact ha
      have hb : (subAt t r').bind (fun u => u.children.get? j) = some v := hv
      cases hp : subAt t r' with
      | none => rw [hp] at hb; simp at hb
      | some vp =>
        rw [nsl_cons, hp] at heq
        by_cases hlt : j + 1 < vp.children.length
        · simp only [hlt, if_pos] at heq
          have hq : q = (j + 1) :: r' := by
            cases heq
            rfl
          subst hq
          rw [dpv_later_child, hd]
          rfl
        · simp [hlt] at heq

/-- The deepest-last-descendant endpoint of the node at position a: it is
childless, and — when the descent is non-trivial — it is a last child whose
ancestor walk continues exactly as the walk at a itself. -/
theorem dld_endpoint (t : RT) : ∀ (n : Nat) (u : RT) (a : List Nat),
    RT.size u ≤ n → subAt t a = some u →
    (∃ w, subAt t (dld_rel u ++ a) = some w ∧ w.children = .nil) ∧
    (u.children ≠ .nil →
      next_sibling_link t (dld_rel u ++ a) = .nil ∧
      anc_next t ((dld_rel u ++ a).tail) = anc_next t a) := by
  intro n
  induction n with
  | zero =>
    intro u a hsz _
    exact absurd (le_trans (RT.size_pos u) hsz) (by omega)
  | succ n ih =>
    intro u a hsz ha
    cases u with
    | mk cs =>
      cases cs with
      | nil =>
        refine ⟨⟨.mk .nil, ?_, rfl⟩, ?_⟩
        · show subAt t ([] ++ a) = some (.mk .nil)
          simpa using ha
        · intro hne
          exact absurd rfl hne
      | cons h2 t2 =>
        have hne : RTL.cons h2 t2 ≠ .nil := by intro h; cases h
        obtain ⟨w, hw1, hw2⟩ := dld_rel_list_concat (.cons h2 t2) hne
        have hlen : 1 ≤ (RTL.cons h2 t2).length := by
          show 1 ≤ t2.length + 1
          omega
        have hm : (RTL.cons h2 t2).length - 1 + 1 = (RTL.cons h2 t2).length := by omega
        have hget : (RTL.cons h2 t2).get? ((RTL.cons h2 t2).length - 1) = some w := by
          rw [← RTL.getLast?_eq_get?]
          exact hw1
        have hsub : subAt t (((RTL.cons h2 t2).length - 1) :: a) = some w := by
          rw [subAt_cons, ha]
          simpa using hget
        have hszw : RT.size w ≤ n := by
          have h1 := RTL.size_get? _ _ _ hget
          have h2' : RT.size (.mk (.cons h2 t2)) = 1 + RTL.size (.cons h2 t2) := rfl
          omega
        have hpath : dld_rel (.mk (.cons h2 t2)) ++ a =
            dld_rel w ++ (((RTL.cons h2 t2).length - 1) :: a) := by
          rw [dld_rel_eq_list, RT.children_mk, hw2]
          simp
        have hnslm : next_sibling_link t (((RTL.cons h2 t2).length - 1) :: a) = .nil := by
          rw [nsl_cons, ha]
          have : ¬ ((RTL.cons h2 t2).length - 1 + 1 < (RT.mk (.cons h2 t2)).children.length) := by
            rw [RT.children_mk]
            omega
          simp [this]
        have ihw := ih w (((RTL.cons h2 t2).length - 1) :: a) hszw hsub
        constructor
        · rw [hpath]
          exact ihw.1
        · intro _
          cases hwc : w.children with
          | nil =>
            have hwrel : dld_rel w = [] := by
              rw [dld_rel_eq_list, hwc]
              rfl
            rw [hpath, hwrel]
            simp only [List.nil_append]
            refine ⟨hnslm, ?_⟩
            rfl
          | cons wh wt =>
            have hwne : w.children ≠ .nil := by rw [hwc]; intro h; cases h
            obtain ⟨ih1, ih2⟩ := ihw.2 hwne
            rw [hpath]
            refine ⟨ih1, ?_⟩
            rw [ih2, anc_next_cons, hnslm]
            simp

/-- C10 (amended): the run of determine_predecessor from the root never
completes (see the counterexample), but the per-node computations themselves
are mutually inverse on node-valued results: for every clause tree with
sibling links as set by introduce_siblings and all valid positions p and q,
the computed successor of p is the node q if and only if the computed
predecessor of q is the node p. -/
theorem C10_successor_predecessor_inverse (t : RT) (p q : List Nat)
    (hp : (subAt t p).isSome) (hq : (subAt t q).isSome) :
    determine_successor_value t p = .node q ↔
      determine_predecessor_value t q = .ok (.node p) := by
  obtain ⟨u, hu⟩ := Option.isSome_iff_exists.mp hp
  constructor
  · intro hs
    rw [dsv_eq t p u hu] at hs
    by_cases hc : u.children.length > 0
    · rw [if_pos hc] at hs
      have hq' : q = 0 :: p := by cases hs; rfl
      subst hq'
      exact dpv_first_child t p
    · rw [if_neg hc] at hs
      have hcn : u.children = .nil := (RTL.length_eq_zero u.children).mp (by omega)
      by_cases hn : next_sibling_link t p ≠ .nil
      · rw [if_pos hn] at hs
        cases p with
        | nil => rw [nsl_nil] at hs; cases hs
        | cons i r =>
          have hb : (subAt t r).bind (fun v => v.children.get? i) = some u := hu
          cases hpr : subAt t r with
          | none => rw [hpr] at hb; simp at hb
          | some vp =>
            rw [nsl_cons, hpr] at hs
            by_cases hlt : i + 1 < vp.children.length
            · simp only [hlt, if_pos] at hs
              have hq' : q = (i + 1) :: r := by cases hs; rfl
              subst hq'
              rw [dpv_later_child]
              have hd : dld_pos t (i :: r) = some (i :: r) := by
                unfold dld_pos
                rw [hu]
                simp [dld_rel_eq_list, hcn]
                rfl
              rw [hd]
              rfl
            · simp [hlt] at hs
      · rw [if_neg hn] at hs
        push_neg at hn
        cases p with
        | nil =>
          rw [nsl_nil] at hn
          cases hn
        | cons i r =>
          have hb : (subAt t r).bind (fun v => v.children.get? i) = some u := hu
          cases hpr : subAt t r with
          | none => rw [hpr] at hb; simp at hb
          | some vp =>
            have hd : dld_pos t (i :: r) = some (i :: r) := by
              unfold dld_pos
              rw [hu]
              simp [dld_rel_eq_list, hcn]
              rfl
            have hdr : dld_pos t r = some (i :: r) := by
              rw [dld_pos_step t i r u hu hn]
              exact hd
            exact anc_next_pred t r (i :: r) q vp hpr hdr hs
  · intro hpred
    cases q with
    | nil =>
      rw [dpv_root] at hpred
      cases hpred
    | cons j r =>
      cases j with
      | zero =>
        rw [dpv_first_child] at hpred
        have hpr : p = r := by
          cases hpred
          rfl
        obtain ⟨uq, huq⟩ := Option.isSome_iff_exists.mp hq
        have hbq : (subAt t r).bind (fun v => v.children.get? 0) = some uq := huq
        cases hqr : subAt t r with
        | none => rw [hqr] at hbq; simp at hbq
        | some vq =>
          rw [hqr] at hbq
          simp at hbq
          have hlen : vq.children.length > 0 := RTL.get?_lt_length _ 0 uq hbq
          rw [hpr, dsv_eq t r vq hqr, if_pos hlen]
      | succ j' =>
        rw [dpv_later_child] at hpred
        obtain ⟨uq, huq⟩ := Option.isSome_iff_exists.mp hq
        have hbq : (subAt t r).bind (fun v => v.children.get? (j' + 1)) = some uq := huq
        cases hqr : subAt t r with
        | none => rw [hqr] at hbq; simp at hbq
        | some vq =>
          rw [hqr] at hbq
          simp at hbq
          have hlt : j' + 1 < vq.children.length := RTL.get?_lt_length _ _ _ hbq
          obtain ⟨ua, hua⟩ := RTL.get?_isSome_of_lt vq.children j' (by omega)
          have hsa : subAt t (j' :: r) = some ua := by
            rw [subAt_cons, hqr]
            simpa using hua
          have hdp : dld_pos t (j' :: r) = some (dld_rel ua ++ (j' :: r)) := by
            unfold dld_pos
            rw [hsa]
            rfl
          have hpv : p = dld_rel ua ++ (j' :: r) := by
            rw [hdp] at hpred
            cases hpred
            rfl
          have hnsa : next_sibling_link t (j' :: r) = .node ((j' + 1) :: r) := by
            rw [nsl_cons, hqr]
            simp [hlt]
          obtain ⟨⟨w, hw, hwc⟩, hrest⟩ :=
            dld_endpoint t (RT.size ua) ua (j' :: r) (le_refl _) hsa
          rw [← hpv] at hw
          cases hac : ua.children with
          | nil =>
            have hrel : dld_rel ua = [] := by
              rw [dld_rel_eq_list, hac]
              rfl
            have hpa : p = j' :: r := by rw [hpv, hrel]; rfl
            have hc0 : ¬ (ua.children.length > 0) := by
              rw [hac]
              simp [RTL.length]
            rw [hpa, dsv_eq t (j' :: r) ua hsa, if_neg hc0,
              if_pos (by rw [hnsa]; intro h; cases h), hnsa]
          | cons wh wt =>
            have hane : ua.children ≠ .nil := by rw [hac]; intro h; cases h
            obtain ⟨hn1, hn2⟩ := hrest hane
            rw [← hpv] at hn1 hn2
            rw [dsv_eq t p w hw]
            have hc0 : ¬ (w.children.length > 0) := by
              rw [hwc]
              simp [RTL.length]
            rw [if_neg hc0, if_neg (by rw [hn1]; simp), hn2, anc_next_cons,
              if_pos (by rw [hnsa]; intro h; cases h), hnsa]

/-- A concrete clause tree for the C10 witness: a root with two childless
children, at positions [0] and [1]. -/
def c10wTree : RT := .mk (.cons (.mk .nil) (.cons (.mk .nil) .nil))

/-- Witness for the amended C10 at the concrete tree: the successor of the
node at [0] is the node at [1], and conversely the predecessor of the node at
[1] is the node at [0]. -/
theorem C10_witness :
    (subAt c10wTree [0]).isSome ∧ (subAt c10wTree [1]).isSome ∧
    determine_predecessor_value c10wTree [1] = .ok (.node [0]) :=
  ⟨by decide, by decide,
    (C10_successor_predecessor_inverse c10wTree [0] [1] (by decide) (by decide)).mp
      (by decide)⟩

theorem getDset : ∀ (l : List Astoid) (i j : Nat) (a : Astoid),
    (l.set i a).getD j astoidDefault =
      if i = j ∧ j < l.length then a else l.getD j astoidDefault
  | [], i, j, a => by simp
  | x :: xs, 0, 0, a => by simp
  | x :: xs, 0, j + 1, a => by simp
  | x :: xs, i + 1, 0, a => by simp
  | x :: xs, i + 1, j + 1, a => by
    show (xs.set i a).getD j astoidDefault = _
    rw [getDset xs i j a]
    by_cases h1 : i = j ∧ j < xs.length
    · rw [if_pos h1, if_pos (by simp; omega)]
    · rw [if_neg h1, if_neg (by simp; omega)]
      rfl

theorem getDappend : ∀ (l : List Astoid) (a : Astoid) (j : Nat),
    (l ++ [a]).getD j astoidDefault =
      if j < l.length then l.getD j astoidDefault
      else if j = l.length then a else astoidDefault
  | [], a, 0 => by simp
  | [], a, j + 1 => by simp
  | x :: xs, a, 0 => by simp
  | x :: xs, a, j + 1 => by
    show (xs ++ [a]).getD j astoidDefault = _
    rw [getDappend xs a j]
    have hlen : (x :: xs).length = xs.length + 1 := rfl
    by_cases h1 : j < xs.length
    · rw [if_pos h1, if_pos (show j + 1 < (x :: xs).length by rw [hlen]; omega)]
      rfl
    · rw [if_neg h1, if_neg (show ¬ (j + 1 < (x :: xs).length) by rw [hlen]; omega)]
      by_cases h2 : j = xs.length
      · rw [if_pos h2, if_pos (show j + 1 = (x :: xs).length by rw [hlen]; omega)]
      · rw [if_neg h2, if_neg (show ¬ (j + 1 = (x :: xs).length) by rw [hlen]; omega)]

theorem getD_oob : ∀ (l : List Astoid) (j : Nat), l.length ≤ j →
    l.getD j astoidDefault = astoidDefault
  | [], j, _ => by simp
  | x :: xs, j + 1, h => by
    show xs.getD j astoidDefault = astoidDefault
    exact getD_oob xs j (by simpa using h)

/-- The converse-links invariant of C3: the successor and predecessor fields
are converse relations on node-valued entries.  It immediately gives "at most
one predecessor and at most one successor" on both sides, and also that no
link ever points at an index outside the arena. -/
def ConvInv (st : ParseSt) : Prop :=
  ∀ p n, (getA st p).successor = .node n ↔ (getA st n).predecessor = .node p

/-- A valid current tail: in range, with its successor still unassigned. -/
def TailOK (st : ParseSt) (tail : Option Nat) : Prop :=
  ∀ t, tail = some t → t < st.nodes.length ∧ (getA st t).successor = .unset

/-- A valid parent reference: in range when present. -/
def ParentOK (st : ParseSt) (par : Option Nat) : Prop :=
  ∀ p, par = some p → p < st.nodes.length

/-- Node-valued predecessor entries are never overwritten by the builder. -/
def PredStable (st st' : ParseSt) : Prop :=
  ∀ i q, (getA st i).predecessor = .node q → (getA st' i).predecessor = .node q

/-- The conclusion of the construction invariant: the converse-links
invariant holds in the output state, the arena only grew, node-valued
predecessors persisted, and — when the builder was given a tail — it returns
a valid tail. -/
def ParseOutOK (st : ParseSt) (tailIn : Option Nat) (st' : ParseSt)
    (tail' : Option Nat) : Prop :=
  ConvInv st' ∧ st.nodes.length ≤ st'.nodes.length ∧ PredStable st st'
  ∧ (tailIn ≠ none →
      ∃ t', tail' = some t' ∧ t' < st'.nodes.length ∧ (getA st' t').successor = .unset)

/-- A parser (recursive invocation of `_parse`) that preserves the
construction invariant. -/
def GoodParser (prs : Ast → Option Nat → Option Nat → Option Nat → ParseSt →
    Except String (ParseSt × Option Nat)) : Prop :=
  ∀ a parent room tail st st' tail',
    ConvInv st → TailOK st tail → ParentOK st parent →
    prs a parent room tail st = .ok (st', tail') → ParseOutOK st tail st' tail'

theorem convInv_not_ge {st : ParseSt} (h : ConvInv st) :
    (∀ p n, st.nodes.length ≤ p → ¬ (getA st n).predecessor = .node p) ∧
    (∀ p n, st.nodes.length ≤ n → ¬ (getA st p).successor = .node n) := by
  constructor
  · intro p n hp hcon
    have := (h p n).mpr hcon
    rw [getA, getD_oob st.nodes p hp] at this
    cases this
  · intro p n hn hcon
    have := (h p n).mp hcon
    rw [getA, getD_oob st.nodes n hn] at this
    cases this


theorem getA_modifyA (st : ParseSt) (i : Nat) (f : Astoid → Astoid) (j : Nat) :
    getA (modifyA st i f) j =
      if i = j ∧ j < st.nodes.length then f (getA st j) else getA st j := by
  show (st.nodes.set i (f (st.nodes.getD i astoidDefault))).getD j astoidDefault = _
  rw [getDset]
  by_cases h : i = j ∧ j < st.nodes.length
  · rw [if_pos h, if_pos h, h.1]
    rfl
  · rw [if_neg h, if_neg h]
    rfl

theorem modifyA_length (st : ParseSt) (i : Nat) (f : Astoid → Astoid) :
    (modifyA st i f).nodes.length = st.nodes.length := by
  show (st.nodes.set i _).length = _
  simp

theorem getA_appended (st : ParseSt) (a : Astoid) (j : Nat) :
    getA { st with nodes := st.nodes ++ [a] } j =
      if j < st.nodes.length then getA st j
      else if j = st.nodes.length then a else astoidDefault := by
  show (st.nodes ++ [a]).getD j astoidDefault = _
  rw [getDappend]
  rfl

theorem setSuccessor_length (st : ParseSt) (i : Nat) (l : Link) :
    (setSuccessor st i l).nodes.length = st.nodes.length := modifyA_length st i _

theorem setPredecessor_length (st : ParseSt) (i : Nat) (l : Link) :
    (setPredecessor st i l).nodes.length = st.nodes.length := modifyA_length st i _

theorem appendRoom_length (st : ParseSt) (room : Option Nat) (i : Nat) :
    (appendRoom st room i).nodes.length = st.nodes.length := by
  cases room with
  | none => rfl
  | some k => exact modifyA_length st k _

theorem getA_setSuccessor (st : ParseSt) (i : Nat) (l : Link) (j : Nat) :
    getA (setSuccessor st i l) j =
      if i = j ∧ j < st.nodes.length then { getA st j with successor := l }
      else getA st j := getA_modifyA st i _ j

theorem getA_setPredecessor (st : ParseSt) (i : Nat) (l : Link) (j : Nat) :
    getA (setPredecessor st i l) j =
      if i = j ∧ j < st.nodes.length then { getA st j with predecessor := l }
      else getA st j := getA_modifyA st i _ j

theorem appendRoom_links (st : ParseSt) (room : Option Nat) (i : Nat) (j : Nat) :
    (getA (appendRoom st room i) j).successor = (getA st j).successor ∧
    (getA (appendRoom st room i) j).predecessor = (getA st j).predecessor := by
  cases room with
  | none => exact ⟨rfl, rfl⟩
  | some k =>
    show (getA (modifyA st k _) j).successor = _ ∧ (getA (modifyA st k _) j).predecessor = _
    rw [getA_modifyA]
    by_cases h : k = j ∧ j < st.nodes.length
    · rw [if_pos h]
      exact ⟨rfl, rfl⟩
    · rw [if_neg h]
      exact ⟨rfl, rfl⟩

/-- appendRoom changes no link field, so it preserves the converse-links
invariant, the tail and parent conditions, and predecessor stability. -/
theorem appendRoom_pres (st : ParseSt) (room : Option Nat) (i : Nat) :
    (ConvInv st → ConvInv (appendRoom st room i)) ∧
    (∀ tail, TailOK st tail → TailOK (appendRoom st room i) tail) ∧
    PredStable st (appendRoom st room i) := by
  refine ⟨?_, ?_, ?_⟩
  · intro hc a b
    rw [(appendRoom_links st room i a).1, (appendRoom_links st room i b).2]
    exact hc a b
  · intro tail htail t htv
    obtain ⟨h1, h2⟩ := htail t htv
    rw [appendRoom_length]
    exact ⟨h1, by rw [(appendRoom_links st room i t).1]; exact h2⟩
  · intro a q hq
    rw [(appendRoom_links st room i a).2]
    exact hq

theorem mkAstoid_node_fail (st : ParseSt) (k : AstKind) (c : Option CodeClause)
    (par room : Option Nat) (p : Nat) (ln : Nat)
    (h : (getA st p).successor ≠ .unset) :
    mkAstoid st k c par room (.node p) ln = .error "Multiple successors" := by
  show (if (getA st p).successor = Link.unset
      then Except.ok (setSuccessor { st with nodes := st.nodes ++
            [⟨k, c, par, room, [], .unset, .unset, .unset, .node p, ln - 1⟩] }
          p (.node st.nodes.length), st.nodes.length)
      else Except.error "Multiple successors") = _
  rw [if_neg h]

/-- Creating a clause with no predecessor: the arena grows by one blank-linked
node and every invariant is preserved. -/
theorem mk_nil_out (st : ParseSt) (k : AstKind) (c : Option CodeClause)
    (par room : Option Nat) (ln : Nat) (st' : ParseSt) (i : Nat)
    (hc : ConvInv st)
    (h : mkAstoid st k c par room .nil ln = .ok (st', i)) :
    i = st.nodes.length ∧ st'.nodes.length = st.nodes.length + 1
    ∧ (∀ j, j < st.nodes.length → getA st' j = getA st j)
    ∧ (getA st' i).successor = .unset
    ∧ ConvInv st' ∧ PredStable st st' := by
  have he : mkAstoid st k c par room .nil ln =
      .ok ({ st with nodes :=
        st.nodes ++ [⟨k, c, par, room, [], .unset, .unset, .unset, .nil, ln - 1⟩] },
        st.nodes.length) := rfl
  rw [he] at h
  obtain ⟨hst, hi⟩ : ({ st with nodes :=
        st.nodes ++ [⟨k, c, par, room, [], .unset, .unset, .unset, .nil, ln - 1⟩] } = st')
      ∧ st.nodes.length = i := by
    cases h
    exact ⟨rfl, rfl⟩
  subst hst
  subst hi
  refine ⟨rfl, by simp, ?_, ?_, ?_, ?_⟩
  · intro j hj
    rw [getA_appended, if_pos hj]
  · rw [getA_appended, if_neg (by omega), if_pos rfl]
  · intro a b
    rw [getA_appended, getA_appended]
    by_cases ha1 : a < st.nodes.length
    · rw [if_pos ha1]
      by_cases hb1 : b < st.nodes.length
      · rw [if_pos hb1]
        exact hc a b
      · rw [if_neg hb1]
        by_cases hb2 : b = st.nodes.length
        · rw [if_pos hb2]
          exact iff_of_false ((convInv_not_ge hc).2 a b (by omega))
            (fun hcon => by simp at hcon)
        · rw [if_neg hb2]
          exact iff_of_false ((convInv_not_ge hc).2 a b (by omega))
            (fun hcon => by simp [astoidDefault] at hcon)
    · rw [if_neg ha1]
      by_cases ha2 : a = st.nodes.length
      · rw [if_pos ha2]
        refine iff_of_false (fun hcon => by simp at hcon) ?_
        by_cases hb1 : b < st.nodes.length
        · rw [if_pos hb1]
          exact (convInv_not_ge hc).1 a b (by omega)
        · rw [if_neg hb1]
          by_cases hb2 : b = st.nodes.length
          · rw [if_pos hb2]
            intro hcon
            simp at hcon
          · rw [if_neg hb2]
            intro hcon
            simp [astoidDefault] at hcon
      · rw [if_neg ha2]
        refine iff_of_false (fun hcon => by simp [astoidDefault] at hcon) ?_
        by_cases hb1 : b < st.nodes.length
        · rw [if_pos hb1]
          exact (convInv_not_ge hc).1 a b (by omega)
        · rw [if_neg hb1]
          by_cases hb2 : b = st.nodes.length
          · rw [if_pos hb2]
            intro hcon
            simp at hcon
          · rw [if_neg hb2]
            intro hcon
            simp [astoidDefault] at hcon
  · intro a q hq
    rw [getA_appended]
    by_cases ha1 : a < st.nodes.length
    · rw [if_pos ha1]
      exact hq
    · rw [getA, getD_oob st.nodes a (by omega)] at hq
      simp [astoidDefault] at hq

/-- Creating a clause linked to a predecessor whose successor slot is free:
the new node and the predecessor are cross-linked and every invariant is
preserved. -/
theorem mk_node_out (st : ParseSt) (k : AstKind) (c : Option CodeClause)
    (par room : Option Nat) (p : Nat) (ln : Nat) (st' : ParseSt) (i : Nat)
    (hc : ConvInv st) (hp : p < st.nodes.length)
    (hps : (getA st p).successor = .unset)
    (h : mkAstoid st k c par room (.node p) ln = .ok (st', i)) :
    i = st.nodes.length ∧ st'.nodes.length = st.nodes.length + 1
    ∧ (∀ j, j < st.nodes.length → j ≠ p → getA st' j = getA st j)
    ∧ (getA st' i).successor = .unset ∧ (getA st' i).predecessor = .node p
    ∧ ConvInv st' ∧ PredStable st st' := by
  have he : mkAstoid st k c par room (.node p) ln =
      .ok (setSuccessor { st with nodes := st.nodes ++
            [⟨k, c, par, room, [], .unset, .unset, .unset, .node p, ln - 1⟩] }
          p (.node st.nodes.length), st.nodes.length) := by
    show (if (getA st p).successor = Link.unset
        then Except.ok (setSuccessor { st with nodes := st.nodes ++
              [⟨k, c, par, room, [], .unset, .unset, .unset, .node p, ln - 1⟩] }
            p (.node st.nodes.length), st.nodes.length)
        else Except.error "Multiple successors") = _
    rw [if_pos hps]
  rw [he] at h
  obtain ⟨hst, hi⟩ : (setSuccessor { st with nodes := st.nodes ++
        [⟨k, c, par, room, [], .unset, .unset, .unset, .node p, ln - 1⟩] }
        p (.node st.nodes.length) = st')
      ∧ st.nodes.length = i := by
    cases h
    exact ⟨rfl, rfl⟩
  subst hst
  subst hi
  have hlen1 : ({ st with nodes := st.nodes ++
      [⟨k, c, par, room, [], .unset, .unset, .unset, .node p, ln - 1⟩] }
        : ParseSt).nodes.length = st.nodes.length + 1 := by simp
  have gdesc : ∀ j, getA (setSuccessor { st with nodes := st.nodes ++
      [⟨k, c, par, room, [], .unset, .unset, .unset, .node p, ln - 1⟩] }
        p (.node st.nodes.length)) j =
      if j = p then { getA st p with successor := .node st.nodes.length }
      else if j < st.nodes.length then getA st j
      else if j = st.nodes.length then
        ⟨k, c, par, room, [], .unset, .unset, .unset, .node p, ln - 1⟩
      else astoidDefault := by
    intro j
    rw [getA_setSuccessor, hlen1, getA_appended]
    by_cases hj : j = p
    · rw [if_pos ⟨hj.symm, by omega⟩, if_pos hj, if_pos (by omega), hj]
    · rw [if_neg (by intro hcon; exact hj hcon.1.symm), if_neg hj]
  refine ⟨rfl, by rw [setSuccessor_length, hlen1], ?_, ?_, ?_, ?_, ?_⟩
  · intro j hj hjp
    rw [gdesc j, if_neg hjp, if_pos hj]
  · rw [gdesc, if_neg (by omega), if_neg (by omega), if_pos rfl]
  · rw [gdesc, if_neg (by omega), if_neg (by omega), if_pos rfl]
  · intro a b
    rw [gdesc a, gdesc b]
    by_cases ha0 : a = p
    · subst ha0
      rw [if_pos rfl]
      by_cases hb0 : b = a
      · subst hb0
        rw [if_pos rfl]
        refine iff_of_false (fun hcon => ?_) (fun hcon => ?_)
        · have hcon' : Link.node st.nodes.length = Link.node b := hcon
          injection hcon' with hh
          omega
        · have hcon' : (getA st b).predecessor = Link.node b := hcon
          have := (hc b b).mpr hcon'
          rw [hps] at this
          cases this
      · rw [if_neg hb0]
        by_cases hb1 : b < st.nodes.length
        · rw [if_pos hb1]
          refine iff_of_false (fun hcon => ?_) (fun hcon => ?_)
          · have hcon' : Link.node st.nodes.length = Link.node b := hcon
            injection hcon' with hh
            omega
          · have := (hc a b).mpr hcon
            rw [hps] at this
            cases this
        · by_cases hb2 : b = st.nodes.length
          · rw [if_neg hb1, if_pos hb2]
            subst hb2
            exact iff_of_true rfl rfl
          · rw [if_neg hb1, if_neg hb2]
            refine iff_of_false (fun hcon => ?_) (fun hcon => ?_)
            · have hcon' : Link.node st.nodes.length = Link.node b := hcon
              injection hcon' with hh
              omega
            · have hcon' : Link.unset = Link.node a := hcon
              cases hcon'
    · rw [if_neg ha0]
      by_cases ha1 : a < st.nodes.length
      · rw [if_pos ha1]
        by_cases hb0 : b = p
        · rw [if_pos hb0]
          subst hb0
          exact hc a b
        · rw [if_neg hb0]
          by_cases hb1 : b < st.nodes.length
          · rw [if_pos hb1]
            exact hc a b
          · by_cases hb2 : b = st.nodes.length
            · rw [if_neg hb1, if_pos hb2]
              refine iff_of_false ((convInv_not_ge hc).2 a b (by omega))
                (fun hcon => ?_)
              have hcon' : Link.node p = Link.node a := hcon
              injection hcon' with hh
              omega
            · rw [if_neg hb1, if_neg hb2]
              refine iff_of_false ((convInv_not_ge hc).2 a b (by omega))
                (fun hcon => ?_)
              have hcon' : Link.unset = Link.node a := hcon
              cases hcon'
      · have hagel : st.nodes.length <= a := by omega
        have hlhs : ∀ (x : Astoid), x.successor = Link.unset →
            ¬ (x.successor = Link.node b) := by
          intro x hx hcon
          rw [hx] at hcon
          cases hcon
        by_cases ha2 : a = st.nodes.length
        · rw [if_neg ha1, if_pos ha2]
          refine iff_of_false (fun hcon => ?_) ?_
          · have hcon' : Link.unset = Link.node b := hcon
            cases hcon'
          · by_cases hb0 : b = p
            · rw [if_pos hb0]
              intro hcon
              exact (convInv_not_ge hc).1 a p hagel hcon
            · rw [if_neg hb0]
              by_cases hb1 : b < st.nodes.length
              · rw [if_pos hb1]
                exact (convInv_not_ge hc).1 a b hagel
              · by_cases hb2 : b = st.nodes.length
                · rw [if_neg hb1, if_pos hb2]
                  intro hcon
                  have hcon' : Link.node p = Link.node a := hcon
                  injection hcon' with hh
                  omega
                · rw [if_neg hb1, if_neg hb2]
                  intro hcon
                  have hcon' : Link.unset = Link.node a := hcon
                  cases hcon'
        · rw [if_neg ha1, if_neg ha2]
          refine iff_of_false (fun hcon => ?_) ?_
          · have hcon' : Link.unset = Link.node b := hcon
            cases hcon'
          · by_cases hb0 : b = p
            · rw [if_pos hb0]
              intro hcon
              exact (convInv_not_ge hc).1 a p hagel hcon
            · rw [if_neg hb0]
              by_cases hb1 : b < st.nodes.length
              · rw [if_pos hb1]
                exact (convInv_not_ge hc).1 a b hagel
              · by_cases hb2 : b = st.nodes.length
                · rw [if_neg hb1, if_pos hb2]
                  intro hcon
                  have hcon' : Link.node p = Link.node a := hcon
                  injection hcon' with hh
                  omega
                · rw [if_neg hb1, if_neg hb2]
                  intro hcon
                  have hcon' : Link.unset = Link.node a := hcon
                  cases hcon'
  · intro a q hq
    rw [gdesc a]
    by_cases ha0 : a = p
    · subst ha0
      rw [if_pos rfl]
      exact hq
    · rw [if_neg ha0]
      by_cases ha1 : a < st.nodes.length
      · rw [if_pos ha1]
        exact hq
      · rw [getA, getD_oob st.nodes a (by omega)] at hq
        simp [astoidDefault] at hq

/-- astoid.py:77: resetting the would-be ELSE clause's predecessor to the
unset sentinel, legitimate only when that predecessor was None. -/
theorem setPred_unset_out (st : ParseSt) (e : Nat)
    (hc : ConvInv st) (he : (getA st e).predecessor = .nil) :
    ConvInv (setPredecessor st e .unset)
    ∧ (∀ j, (getA (setPredecessor st e .unset) j).successor = (getA st j).successor)
    ∧ PredStable st (setPredecessor st e .unset)
    ∧ (setPredecessor st e .unset).nodes.length = st.nodes.length := by
  have hsucc : ∀ j, (getA (setPredecessor st e .unset) j).successor =
      (getA st j).successor := by
    intro j
    rw [getA_setPredecessor]
    by_cases h : e = j ∧ j < st.nodes.length
    · rw [if_pos h]
    · rw [if_neg h]
  have hpredn : ∀ j, j ≠ e → (getA (setPredecessor st e .unset) j).predecessor =
      (getA st j).predecessor := by
    intro j hj
    rw [getA_setPredecessor, if_neg (by intro hcon; exact hj hcon.1.symm)]
  refine ⟨?_, hsucc, ?_, setPredecessor_length st e _⟩
  · intro a b
    rw [hsucc a]
    by_cases hb : b = e
    · subst hb
      refine iff_of_false (fun hcon => ?_) (fun hcon => ?_)
      · have := (hc a b).mp hcon
        rw [he] at this
        cases this
      · rw [getA_setPredecessor] at hcon
        by_cases hcond : b = b ∧ b < st.nodes.length
        · rw [if_pos hcond] at hcon
          have hcon' : Link.unset = Link.node a := hcon
          cases hcon'
        · rw [if_neg hcond] at hcon
          rw [he] at hcon
          cases hcon
    · rw [hpredn b hb]
      exact hc a b
  · intro a q hq
    by_cases ha : a = e
    · subst ha
      rw [he] at hq
      cases hq
    · rw [hpredn a ha]
      exact hq

/-- astoid.py:96-97: committing the deferred predecessor of the ELSE clause
and overwriting the tail's successor; legitimate when the ELSE clause's
predecessor is the unset sentinel and the tail's successor is unassigned. -/
theorem fixup_out (st : ParseSt) (e tn : Nat)
    (hc : ConvInv st) (he : e < st.nodes.length) (htn : tn < st.nodes.length)
    (hep : (getA st e).predecessor = .unset)
    (hts : (getA st tn).successor = .unset) :
    ConvInv (setSuccessor (setPredecessor st e (.node tn)) tn (.node e))
    ∧ PredStable st (setSuccessor (setPredecessor st e (.node tn)) tn (.node e))
    ∧ (setSuccessor (setPredecessor st e (.node tn)) tn (.node e)).nodes.length
        = st.nodes.length := by
  have hlen1 : (setPredecessor st e (.node tn)).nodes.length = st.nodes.length :=
    setPredecessor_length st e _
  have hsucc : ∀ j, j ≠ tn →
      (getA (setSuccessor (setPredecessor st e (.node tn)) tn (.node e)) j).successor
        = (getA st j).successor := by
    intro j hj
    rw [getA_setSuccessor, if_neg (by intro hcon; exact hj hcon.1.symm),
      getA_setPredecessor]
    by_cases h : e = j ∧ j < st.nodes.length
    · rw [if_pos h]
    · rw [if_neg h]
  have hsucct :
      (getA (setSuccessor (setPredecessor st e (.node tn)) tn (.node e)) tn).successor
        = .node e := by
    rw [getA_setSuccessor, hlen1, if_pos ⟨rfl, htn⟩]
  have hpredn : ∀ j, j ≠ e →
      (getA (setSuccessor (setPredecessor st e (.node tn)) tn (.node e)) j).predecessor
        = (getA st j).predecessor := by
    intro j hj
    rw [getA_setSuccessor, hlen1]
    by_cases h : tn = j ∧ j < st.nodes.length
    · rw [if_pos h, getA_setPredecessor, if_neg (by intro hcon; exact hj hcon.1.symm)]
    · rw [if_neg h, getA_setPredecessor, if_neg (by intro hcon; exact hj hcon.1.symm)]
  have hprede :
      (getA (setSuccessor (setPredecessor st e (.node tn)) tn (.node e)) e).predecessor
        = .node tn := by
    rw [getA_setSuccessor, hlen1]
    by_cases h : tn = e ∧ e < st.nodes.length
    · rw [if_pos h, getA_setPredecessor, if_pos ⟨rfl, he⟩]
    · rw [if_neg h, getA_setPredecessor, if_pos ⟨rfl, he⟩]
  refine ⟨?_, ?_, by rw [setSuccessor_length, hlen1]⟩
  · intro a b
    by_cases ha : a = tn
    · subst ha
      rw [hsucct]
      by_cases hb : b = e
      · subst hb
        rw [hprede]
        exact iff_of_true rfl rfl
      · rw [hpredn b hb]
        refine iff_of_false (fun hcon => ?_) (fun hcon => ?_)
        · have hcon' : Link.node e = Link.node b := hcon
          injection hcon' with hh
          exact hb hh.symm
        · have := (hc a b).mpr hcon
          rw [hts] at this
          cases this
    · rw [hsucc a ha]
      by_cases hb : b = e
      · subst hb
        rw [hprede]
        refine iff_of_false (fun hcon => ?_) (fun hcon => ?_)
        · have := (hc a b).mp hcon
          rw [hep] at this
          cases this
        · have hcon' : Link.node tn = Link.node a := hcon
          injection hcon' with hh
          exact ha hh.symm
      · rw [hpredn b hb]
        exact hc a b
  · intro a q hq
    by_cases ha : a = e
    · subst ha
      rw [hep] at hq
      cases hq
    · rw [hpredn a ha]
      exact hq

theorem predStable_refl (st : ParseSt) : PredStable st st := fun _ _ hq => hq

theorem predStable_trans {s1 s2 s3 : ParseSt} (h1 : PredStable s1 s2)
    (h2 : PredStable s2 s3) : PredStable s1 s3 :=
  fun i q hq => h2 i q (h1 i q hq)

theorem parentOK_mono {st st' : ParseSt} {par : Option Nat} (h : ParentOK st par)
    (hle : st.nodes.length ≤ st'.nodes.length) : ParentOK st' par :=
  fun p hp => lt_of_lt_of_le (h p hp) hle

theorem tailOK_of_some {st : ParseSt} {t : Nat} (h1 : t < st.nodes.length)
    (h2 : (getA st t).successor = .unset) : TailOK st (some t) := by
  intro t' ht'
  cases ht'
  exact ⟨h1, h2⟩

/-- Threading a statement sequence from a valid tail: the invariant is
preserved and the returned tail is again valid. -/
theorem parseList_inv (prs : Ast → Option Nat → Option Nat → Option Nat → ParseSt →
      Except String (ParseSt × Option Nat)) (hg : GoodParser prs) :
    ∀ (as' : List Ast) (parent room : Option Nat) (t : Nat) (st st' : ParseSt)
      (tail' : Option Nat),
    ConvInv st → t < st.nodes.length → (getA st t).successor = .unset →
    ParentOK st parent →
    _parseList prs as' parent room (some t) st = .ok (st', tail') →
    ConvInv st' ∧ st.nodes.length ≤ st'.nodes.length ∧ PredStable st st'
    ∧ ∃ t', tail' = some t' ∧ t' < st'.nodes.length ∧ (getA st' t').successor = .unset
  | [], parent, room, t, st, st', tail', hc, hvt, hvs, _, h => by
    have he : _parseList prs [] parent room (some t) st = .ok (st, some t) := rfl
    rw [he] at h
    obtain ⟨h1, h2⟩ : st = st' ∧ some t = tail' := by
      cases h
      exact ⟨rfl, rfl⟩
    subst h1
    subst h2
    exact ⟨hc, le_refl _, predStable_refl st, t, rfl, hvt, hvs⟩
  | hd :: tl, parent, room, t, st, st', tail', hc, hvt, hvs, hpar, h => by
    have he : _parseList prs (hd :: tl) parent room (some t) st =
        eb (prs hd parent room (some t) st) fun sp =>
          _parseList prs tl parent room sp.2 sp.1 := rfl
    rw [he] at h
    obtain ⟨sp, hh, hrest⟩ := eb_eq_ok.mp h
    obtain ⟨hc1, hle1, hps1, hto1⟩ :=
      hg hd parent room (some t) st sp.1 sp.2 hc (tailOK_of_some hvt hvs) hpar hh
    obtain ⟨t2, ht2, hvt2, hvs2⟩ := hto1 (by simp)
    rw [ht2] at hrest
    obtain ⟨hc2, hle2, hps2, hres⟩ :=
      parseList_inv prs hg tl parent room t2 sp.1 st' tail' hc1 hvt2 hvs2
        (parentOK_mono hpar hle1) hrest
    exact ⟨hc2, le_trans hle1 hle2, predStable_trans hps1 hps2, hres⟩

/-- One create-append-recurse stage of the builder: make a clause with a
no-predecessor or valid-tail predecessor, append it to its homeroom, and
parse a statement sequence beneath it. -/
theorem stage_out (prs : Ast → Option Nat → Option Nat → Option Nat → ParseSt →
      Except String (ParseSt × Option Nat)) (hg : GoodParser prs)
    (body : List Ast) (st : ParseSt) (k : AstKind) (c : Option CodeClause)
    (par room : Option Nat) (pl : Link) (ln : Nat) (st2 : ParseSt)
    (tail2 : Option Nat) (hc : ConvInv st)
    (hpl : pl = .nil ∨ ∃ t, pl = .node t ∧ t < st.nodes.length ∧
      (getA st t).successor = .unset)
    (hok : eb (mkAstoid st k c par room pl ln) (fun si =>
        _parseList prs body (some si.2) (some si.2) (some si.2)
          (appendRoom si.1 room si.2)) = .ok (st2, tail2)) :
    ConvInv st2 ∧ st.nodes.length ≤ st2.nodes.length ∧ PredStable st st2
    ∧ ∃ t2, tail2 = some t2 ∧ t2 < st2.nodes.length
        ∧ (getA st2 t2).successor = .unset := by
  obtain ⟨si, hmk, hlist⟩ := eb_eq_ok.mp hok
  have hfacts : si.2 = st.nodes.length
      ∧ si.1.nodes.length = st.nodes.length + 1
      ∧ (getA si.1 si.2).successor = .unset
      ∧ ConvInv si.1 ∧ PredStable st si.1 := by
    rcases hpl with hnil | ⟨t, hnode, hvt, hvs⟩
    · subst hnil
      obtain ⟨a1, a2, _, a4, a5, a6⟩ :=
        mk_nil_out st k c par room ln si.1 si.2 hc (by rw [← hmk])
      exact ⟨a1, a2, a4, a5, a6⟩
    · subst hnode
      obtain ⟨a1, a2, _, a4, _, a6, a7⟩ :=
        mk_node_out st k c par room t ln si.1 si.2 hc hvt hvs (by rw [← hmk])
      exact ⟨a1, a2, a4, a6, a7⟩
  obtain ⟨hi, hlen1, hsucci, hc1, hps1⟩ := hfacts
  obtain ⟨hap_conv, hap_tail, hap_ps⟩ := appendRoom_pres si.1 room si.2
  have hca : ConvInv (appendRoom si.1 room si.2) := hap_conv hc1
  have hvia : si.2 < (appendRoom si.1 room si.2).nodes.length := by
    rw [appendRoom_length, hlen1, hi]
    omega
  have hvsa : (getA (appendRoom si.1 room si.2) si.2).successor = .unset := by
    rw [(appendRoom_links si.1 room si.2 si.2).1]
    exact hsucci
  have hparA : ParentOK (appendRoom si.1 room si.2) (some si.2) := by
    intro p hp
    cases hp
    exact hvia
  obtain ⟨hc2, hle2, hps2, hres⟩ :=
    parseList_inv prs hg body (some si.2) (some si.2) si.2
      (appendRoom si.1 room si.2) st2 tail2 hca hvia hvsa hparA hlist
  refine ⟨hc2, ?_, ?_, hres⟩
  · rw [appendRoom_length, hlen1] at hle2
    omega
  · exact predStable_trans hps1 (predStable_trans hap_ps hps2)

/-- The handler loop of the try construct preserves the invariant. -/
theorem parseHandlers_inv (prs : Ast → Option Nat → Option Nat → Option Nat → ParseSt →
      Except String (ParseSt × Option Nat)) (hg : GoodParser prs) :
    ∀ (hs : List (Nat × List Ast)) (parent room tail : Option Nat)
      (st st' : ParseSt) (tail' : Option Nat),
    ConvInv st → TailOK st tail → ParentOK st parent →
    _parseHandlers prs hs parent room tail st = .ok (st', tail') →
    ParseOutOK st tail st' tail'
  | [], parent, room, tail, st, st', tail', hc, ht, _, h => by
    have he : _parseHandlers prs [] parent room tail st = .ok (st, tail) := rfl
    rw [he] at h
    obtain ⟨h1, h2⟩ : st = st' ∧ tail = tail' := by
      cases h
      exact ⟨rfl, rfl⟩
    subst h1
    subst h2
    refine ⟨hc, le_refl _, predStable_refl st, ?_⟩
    intro hne
    obtain ⟨t, htv⟩ := Option.ne_none_iff_exists'.mp hne
    obtain ⟨h1, h2⟩ := ht t htv
    exact ⟨t, htv, h1, h2⟩
  | (hlineno, hbody) :: tl, parent, room, tail, st, st', tail', hc, ht, hpar, h => by
    have he : _parseHandlers prs ((hlineno, hbody) :: tl) parent room tail st =
        eb (if hbody.isEmpty then .ok (st, tail)
            else
              eb (mkAstoid st .ExceptHandler (some .EXCEPT) parent room
                    .nil hlineno) fun si =>
                _parseList prs hbody (some si.2) (some si.2) (some si.2)
                  (appendRoom si.1 room si.2)) fun sp =>
          _parseHandlers prs tl parent room sp.2 sp.1 := rfl
    rw [he] at h
    obtain ⟨sp, hh, hrest⟩ := eb_eq_ok.mp h
    by_cases hbe : hbody.isEmpty
    · rw [if_pos hbe] at hh
      obtain ⟨h1, h2⟩ : st = sp.1 ∧ tail = sp.2 := by
        cases hh
        exact ⟨rfl, rfl⟩
      obtain ⟨hc2, hle2, hps2, hto2⟩ :=
        parseHandlers_inv prs hg tl parent room sp.2 sp.1 st' tail'
          (h1 ▸ hc) (h1 ▸ h2 ▸ ht) (h1 ▸ hpar) hrest
      rw [← h1] at hle2 hps2
      exact ⟨hc2, hle2, hps2, fun hne => hto2 (h2 ▸ hne)⟩
    · rw [if_neg hbe] at hh
      obtain ⟨hc2, hle2, hps2, t2, ht2, hvt2, hvs2⟩ :=
        stage_out prs hg hbody st .ExceptHandler (some .EXCEPT) parent room
          .nil hlineno sp.1 sp.2 hc (Or.inl rfl) hh
      obtain ⟨hc3, hle3, hps3, hto3⟩ :=
        parseHandlers_inv prs hg tl parent room sp.2 sp.1 st' tail' hc2
          (by rw [ht2]; exact tailOK_of_some hvt2 hvs2)
          (parentOK_mono hpar hle2) hrest
      refine ⟨hc3, le_trans hle2 hle3, predStable_trans hps2 hps3, ?_⟩
      intro _
      exact hto3 (by rw [ht2]; simp)

theorem parseOutOK_id {st : ParseSt} {tail : Option Nat}
    (hc : ConvInv st) (ht : TailOK st tail) : ParseOutOK st tail st tail := by
  refine ⟨hc, le_refl _, predStable_refl st, ?_⟩
  intro hne
  obtain ⟨t, htv⟩ := Option.ne_none_iff_exists'.mp hne
  obtain ⟨h1, h2⟩ := ht t htv
  exact ⟨t, htv, h1, h2⟩

theorem linkOf_cases {st : ParseSt} {tl : Option Nat} (ht : TailOK st tl) :
    linkOf tl = .nil ∨ ∃ t, linkOf tl = .node t ∧ t < st.nodes.length ∧
      (getA st t).successor = .unset := by
  cases tl with
  | none => exact Or.inl rfl
  | some t =>
    obtain ⟨h1, h2⟩ := ht t rfl
    exact Or.inr ⟨t, rfl, h1, h2⟩

theorem mkAstoid_unset_eq (st : ParseSt) (k : AstKind) (c : Option CodeClause)
    (par room : Option Nat) (ln : Nat) :
    mkAstoid st k c par room .unset ln
      = .error "AttributeError: ellipsis has no attribute successor" := rfl

theorem linkOf_eq_nil {tl : Option Nat} (h : linkOf tl = .nil) : tl = none := by
  cases tl with
  | none => rfl
  | some t => cases h

/-- The construction invariant of the clause builder: any successful run of
`_parse`, at any recursion depth, from a state satisfying the converse-links
invariant with a valid tail and a valid parent, yields a state that still
satisfies the converse-links invariant, only grows the arena, never
overwrites a node-valued predecessor, and returns a valid tail whenever it
was given one. -/
theorem parse_inv : ∀ (fuel : Nat) (lines : List String), GoodParser (_parse lines fuel)
  | 0, lines => by
    intro a parent room tail st st' tail' _ _ _ h
    have he : _parse lines 0 a parent room tail st =
        .error "RecursionError: maximum recursion depth exceeded" := rfl
    rw [he] at h
    cases h
  | fuel + 1, lines => by
    have IH : GoodParser (_parse lines fuel) := parse_inv fuel lines
    intro a parent room tail st st' tail' hc ht hpar hok
    cases a with
    | container kind lineno body =>
      have he : _parse lines (fuel + 1) (.container kind lineno body) parent room tail st =
          (if body.isEmpty then .ok (st, tail)
           else
             eb (mkAstoid st kind (some .BODY) parent room (linkOf tail) lineno) fun si =>
               _parseList (_parse lines fuel) body (some si.2) (some si.2) (some si.2)
                 (appendRoom si.1 room si.2)) := rfl
      rw [he] at hok
      by_cases hbe : body.isEmpty
      · rw [if_pos hbe] at hok
        obtain ⟨h1, h2⟩ : st = st' ∧ tail = tail' := by
          cases hok
          exact ⟨rfl, rfl⟩
        subst h1
        subst h2
        exact parseOutOK_id hc ht
      · rw [if_neg hbe] at hok
        obtain ⟨c2, l2, p2, res⟩ :=
          stage_out _ IH body st kind (some .BODY) parent room (linkOf tail) lineno
            st' tail' hc (linkOf_cases ht) hok
        exact ⟨c2, l2, p2, fun _ => res⟩
    | simple kind lineno =>
      have he : _parse lines (fuel + 1) (.simple kind lineno) parent room tail st =
          (eb (mkAstoid st kind none parent room .nil lineno) fun si =>
            .ok (appendRoom si.1 room si.2, some si.2)) := rfl
      rw [he] at hok
      obtain ⟨si, hmk, hres⟩ := eb_eq_ok.mp hok
      obtain ⟨a1, a2, _, a4, a5, a6⟩ :=
        mk_nil_out st kind none parent room lineno si.1 si.2 hc hmk
      obtain ⟨h1, h2⟩ : appendRoom si.1 room si.2 = st' ∧ some si.2 = tail' := by
        cases hres
        exact ⟨rfl, rfl⟩
      subst h1
      subst h2
      obtain ⟨hap_conv, _, hap_ps⟩ := appendRoom_pres si.1 room si.2
      refine ⟨hap_conv a5, ?_, predStable_trans a6 hap_ps, ?_⟩
      · rw [appendRoom_length, a2]
        omega
      · intro _
        refine ⟨si.2, rfl, ?_, ?_⟩
        · rw [appendRoom_length, a2, a1]
          omega
        · rw [(appendRoom_links si.1 room si.2 si.2).1]
          exact a4
    | loop kind lineno body orelse =>
      have he : _parse lines (fuel + 1) (.loop kind lineno body orelse) parent room tail st =
          (eb (if body.isEmpty then .ok (st, tail)
               else
                 eb (mkAstoid st kind (some .BODY) parent room .nil lineno) fun si =>
                   _parseList (_parse lines fuel) body (some si.2) (some si.2)
                     (some si.2) (appendRoom si.1 room si.2)) fun sp =>
            if orelse.isEmpty then .ok sp
            else
              eb (mkAstoid sp.1 kind (some .ELSE) parent room (linkOf sp.2) lineno)
                fun si =>
                  _parseList (_parse lines fuel) orelse (some si.2) (some si.2)
                    (some si.2) (appendRoom si.1 room si.2)) := rfl
      rw [he] at hok
      obtain ⟨sp, hbody, hrest⟩ := eb_eq_ok.mp hok
      have hbp : ConvInv sp.1 ∧ st.nodes.length ≤ sp.1.nodes.length
          ∧ PredStable st sp.1 ∧ TailOK sp.1 sp.2
          ∧ (tail ≠ none → sp.2 ≠ none) := by
        by_cases hbe : body.isEmpty
        · rw [if_pos hbe] at hbody
          obtain ⟨h1, h2⟩ : st = sp.1 ∧ tail = sp.2 := by
            cases hbody
            exact ⟨rfl, rfl⟩
          subst h1
          rw [← h2]
          exact ⟨hc, le_refl _, predStable_refl _, ht, fun h => h⟩
        · rw [if_neg hbe] at hbody
          obtain ⟨c2, l2, p2, t2, ht2, hvt2, hvs2⟩ :=
            stage_out _ IH body st kind (some .BODY) parent room .nil lineno
              sp.1 sp.2 hc (Or.inl rfl) hbody
          exact ⟨c2, l2, p2, by rw [ht2]; exact tailOK_of_some hvt2 hvs2,
            by rw [ht2]; simp⟩
      obtain ⟨hc2, hle2, hps2, hto2, hne2⟩ := hbp
      by_cases hoe : orelse.isEmpty
      · rw [if_pos hoe] at hrest
        obtain ⟨h1, h2⟩ : sp.1 = st' ∧ sp.2 = tail' := by
          cases hrest
          exact ⟨rfl, rfl⟩
        subst h1
        subst h2
        refine ⟨hc2, hle2, hps2, ?_⟩
        intro hne
        obtain ⟨t, htv⟩ := Option.ne_none_iff_exists'.mp (hne2 hne)
        obtain ⟨x1, x2⟩ := hto2 t htv
        exact ⟨t, htv, x1, x2⟩
      · rw [if_neg hoe] at hrest
        obtain ⟨c3, l3, p3, res⟩ :=
          stage_out _ IH orelse sp.1 kind (some .ELSE) parent room (linkOf sp.2)
            lineno st' tail' hc2 (linkOf_cases hto2) hrest
        exact ⟨c3, le_trans hle2 l3, predStable_trans hps2 p3, fun _ => res⟩
    | tryStmt lineno body handlers orelse finalbody =>
      have he : _parse lines (fuel + 1)
            (.tryStmt lineno body handlers orelse finalbody) parent room tail st =
          (eb (if body.isEmpty then .ok (st, tail)
               else
                 eb (mkAstoid st .Try (some .BODY) parent room (linkOf tail) lineno)
                   fun si =>
                     _parseList (_parse lines fuel) body (some si.2) (some si.2)
                       (some si.2) (appendRoom si.1 room si.2)) fun sp2 =>
            eb (_parseHandlers (_parse lines fuel) handlers parent room sp2.2 sp2.1)
              fun sp3 =>
                eb (if orelse.isEmpty then .ok sp3
                    else
                      eb (mkAstoid sp3.1 .Try (some .ELSE) parent room .nil lineno)
                        fun si =>
                          _parseList (_parse lines fuel) orelse (some si.2)
                            (some si.2) (some si.2) (appendRoom si.1 room si.2))
                  fun sp5 =>
                    if finalbody.isEmpty then .ok sp5
                    else
                      eb (mkAstoid sp5.1 .Try (some .FINALLY) parent room .nil lineno)
                        fun si =>
                          _parseList (_parse lines fuel) finalbody (some si.2)
                            (some si.2) (some si.2) (appendRoom si.1 room si.2)) := rfl
      rw [he] at hok
      obtain ⟨sp2, hbody, hok2⟩ := eb_eq_ok.mp hok
      obtain ⟨sp3, hhand, hok3⟩ := eb_eq_ok.mp hok2
      obtain ⟨sp5, horel, hok5⟩ := eb_eq_ok.mp hok3
      have hbp : ConvInv sp2.1 ∧ st.nodes.length ≤ sp2.1.nodes.length
          ∧ PredStable st sp2.1 ∧ TailOK sp2.1 sp2.2
          ∧ (tail ≠ none → sp2.2 ≠ none) := by
        by_cases hbe : body.isEmpty
        · rw [if_pos hbe] at hbody
          obtain ⟨h1, h2⟩ : st = sp2.1 ∧ tail = sp2.2 := by
            cases hbody
            exact ⟨rfl, rfl⟩
          subst h1
          rw [← h2]
          exact ⟨hc, le_refl _, predStable_refl _, ht, fun h => h⟩
        · rw [if_neg hbe] at hbody
          obtain ⟨c2, l2, p2, t2, ht2, hvt2, hvs2⟩ :=
            stage_out _ IH body st .Try (some .BODY) parent room (linkOf tail)
              lineno sp2.1 sp2.2 hc (linkOf_cases ht) hbody
          exact ⟨c2, l2, p2, by rw [ht2]; exact tailOK_of_some hvt2 hvs2,
            by rw [ht2]; simp⟩
      obtain ⟨hc2, hle2, hps2, hto2, hne2⟩ := hbp
      obtain ⟨hc3, hle3, hps3, hto3⟩ :=
        parseHandlers_inv _ IH handlers parent room sp2.2 sp2.1 sp3.1 sp3.2 hc2
          hto2 (parentOK_mono hpar hle2) hhand
      have h5 : ConvInv sp5.1 ∧ sp3.1.nodes.length ≤ sp5.1.nodes.length
          ∧ PredStable sp3.1 sp5.1
          ∧ (sp2.2 ≠ none → ∃ t5, sp5.2 = some t5 ∧ t5 < sp5.1.nodes.length
              ∧ (getA sp5.1 t5).successor = .unset) := by
        by_cases hoe : orelse.isEmpty
        · rw [if_pos hoe] at horel
          have h12 : sp3 = sp5 := by
            cases horel
            rfl
          rw [← h12]
          exact ⟨hc3, le_refl _, predStable_refl _, hto3⟩
        · rw [if_neg hoe] at horel
          obtain ⟨c5, l5, p5, t5, ht5, hv5, hs5⟩ :=
            stage_out _ IH orelse sp3.1 .Try (some .ELSE) parent room .nil lineno
              sp5.1 sp5.2 hc3 (Or.inl rfl) horel
          exact ⟨c5, l5, p5, fun _ => ⟨t5, ht5, hv5, hs5⟩⟩
      obtain ⟨hc5, hle5, hps5, hto5⟩ := h5
      have h7 : ConvInv st' ∧ sp5.1.nodes.length ≤ st'.nodes.length
          ∧ PredStable sp5.1 st'
          ∧ (sp2.2 ≠ none → ∃ t7, tail' = some t7 ∧ t7 < st'.nodes.length
              ∧ (getA st' t7).successor = .unset) := by
        by_cases hfe : finalbody.isEmpty
        · rw [if_pos hfe] at hok5
          obtain ⟨h1, h2⟩ : sp5.1 = st' ∧ sp5.2 = tail' := by
            cases hok5
            exact ⟨rfl, rfl⟩
          subst h1
          subst h2
          exact ⟨hc5, le_refl _, predStable_refl _, hto5⟩
        · rw [if_neg hfe] at hok5
          obtain ⟨c7, l7, p7, t7, ht7, hv7, hs7⟩ :=
            stage_out _ IH finalbody sp5.1 .Try (some .FINALLY) parent room .nil
              lineno st' tail' hc5 (Or.inl rfl) hok5
          exact ⟨c7, l7, p7, fun _ => ⟨t7, ht7, hv7, hs7⟩⟩
      obtain ⟨hc7, hle7, hps7, hto7⟩ := h7
      refine ⟨hc7, le_trans hle2 (le_trans hle3 (le_trans hle5 hle7)), ?_, ?_⟩
      · exact predStable_trans hps2 (predStable_trans hps3
          (predStable_trans hps5 hps7))
      · intro hne
        exact hto7 (hne2 hne)
    | ifStmt lineno body orelse =>
      simp only [_parse] at hok
      obtain ⟨spr, hbody, hrest⟩ := eb_eq_ok.mp hok
      have hbp : ConvInv spr.1 ∧ st.nodes.length ≤ spr.1.nodes.length
          ∧ PredStable st spr.1 ∧ TailOK spr.1 spr.2.2.2
          ∧ (tail ≠ none → spr.2.2.2 ≠ none) := by
        by_cases hbe : body.isEmpty
        · rw [if_pos hbe] at hbody
          have h12 : ((st, parent, room, tail) :
              ParseSt × Option Nat × Option Nat × Option Nat) = spr := by
            cases hbody
            rfl
          rw [← h12]
          exact ⟨hc, le_refl _, predStable_refl _, ht, fun h => h⟩
        · rw [if_neg hbe] at hbody
          by_cases hel : elifLine lines lineno
          · rw [if_pos hel] at hbody
            cases parent with
            | none =>
              have hbody' : (Except.error "AttributeError: NoneType has no attribute type"
                  : Except String (ParseSt × Option Nat × Option Nat × Option Nat))
                    = .ok spr := hbody
              exact Except.noConfusion hbody'
            | some pe =>
              have hpe_lt : pe < st.nodes.length := hpar pe rfl
              have hbody2 : (if (getA st pe).type = (AstKind.If, some CodeClause.ELSE)
                  then
                    eb (mkAstoid st .If (some .ELIF) (getA st pe).parent
                          (getA st pe).homeroom (getA st pe).predecessor lineno)
                      fun si =>
                        eb (_parseList (_parse lines fuel) body (some si.2)
                              (some si.2) (some si.2)
                              (appendRoom (setPredecessor si.1 pe .unset)
                                (getA st pe).homeroom si.2)) fun sp =>
                          .ok (sp.1, (getA st pe).parent, (getA st pe).homeroom, sp.2)
                  else .error "AssertionError") = .ok spr := hbody
              by_cases hty : (getA st pe).type = (AstKind.If, some CodeClause.ELSE)
              · rw [if_pos hty] at hbody2
                obtain ⟨si, hmk, hrest2⟩ := eb_eq_ok.mp hbody2
                obtain ⟨sp, hlist2, hfin2⟩ := eb_eq_ok.mp hrest2
                have h12 : ((sp.1, (getA st pe).parent, (getA st pe).homeroom, sp.2) :
                    ParseSt × Option Nat × Option Nat × Option Nat) = spr := by
                  cases hfin2
                  rfl
                cases hpl : (getA st pe).predecessor with
                | unset =>
                  rw [hpl, mkAstoid_unset_eq] at hmk
                  exact Except.noConfusion hmk
                | node q =>
                  have hsq : (getA st q).successor = .node pe := (hc q pe).mpr hpl
                  rw [hpl, mkAstoid_node_fail st _ _ _ _ q _
                    (by rw [hsq]; intro hcon; cases hcon)] at hmk
                  exact Except.noConfusion hmk
                | nil =>
                  rw [hpl] at hmk
                  obtain ⟨a1, a2, a3, a4, a5, a6⟩ :=
                    mk_nil_out st .If (some .ELIF) (getA st pe).parent
                      (getA st pe).homeroom lineno si.1 si.2 hc hmk
                  have hpred_pe : (getA si.1 pe).predecessor = .nil := by
                    rw [a3 pe hpe_lt]
                    exact hpl
                  obtain ⟨b1, b2, b3, b4⟩ := setPred_unset_out si.1 pe a5 hpred_pe
                  obtain ⟨c1, c2, c3⟩ :=
                    appendRoom_pres (setPredecessor si.1 pe .unset)
                      (getA st pe).homeroom si.2
                  have hlenA : (appendRoom (setPredecessor si.1 pe .unset)
                      (getA st pe).homeroom si.2).nodes.length
                        = st.nodes.length + 1 := by
                    rw [appendRoom_length, b4, a2]
                  have hsA : (getA (appendRoom (setPredecessor si.1 pe .unset)
                      (getA st pe).homeroom si.2) si.2).successor = .unset := by
                    rw [(appendRoom_links _ _ _ si.2).1, b2 si.2]
                    exact a4
                  have hiA : si.2 < (appendRoom (setPredecessor si.1 pe .unset)
                      (getA st pe).homeroom si.2).nodes.length := by
                    rw [hlenA, a1]
                    omega
                  have hparA : ParentOK (appendRoom (setPredecessor si.1 pe .unset)
                      (getA st pe).homeroom si.2) (some si.2) := by
                    intro p hp
                    cases hp
                    exact hiA
                  obtain ⟨d1, d2, d3, t2, ht2, hvt2, hvs2⟩ :=
                    parseList_inv _ IH body (some si.2) (some si.2) si.2
                      (appendRoom (setPredecessor si.1 pe .unset)
                        (getA st pe).homeroom si.2) sp.1 sp.2 (c1 b1)
                      hiA hsA hparA hlist2
                  have hs1 : spr.1 = sp.1 := by rw [← h12]
                  have hs4 : spr.2.2.2 = sp.2 := by rw [← h12]
                  rw [hs1, hs4]
                  refine ⟨d1, ?_, ?_, ?_, ?_⟩
                  · calc st.nodes.length
                        ≤ (appendRoom (setPredecessor si.1 pe .unset)
                            (getA st pe).homeroom si.2).nodes.length := by
                          rw [hlenA]; omega
                      _ ≤ sp.1.nodes.length := d2
                  · exact predStable_trans a6 (predStable_trans b3
                      (predStable_trans c3 d3))
                  · rw [ht2]
                    exact tailOK_of_some hvt2 hvs2
                  · rw [ht2]
                    simp
              · rw [if_neg hty] at hbody2
                exact Except.noConfusion hbody2
          · rw [if_neg hel] at hbody
            obtain ⟨si, hmk, hrest2⟩ := eb_eq_ok.mp hbody
            obtain ⟨sp, hlist2, hfin2⟩ := eb_eq_ok.mp hrest2
            have h12 : ((sp.1, parent, room, sp.2) :
                ParseSt × Option Nat × Option Nat × Option Nat) = spr := by
              cases hfin2
              rfl
            have hok2 : eb (mkAstoid st .If (some .BODY) parent room
                  (linkOf tail) lineno) (fun si =>
                _parseList (_parse lines fuel) body (some si.2) (some si.2)
                  (some si.2) (appendRoom si.1 room si.2)) = .ok (sp.1, sp.2) := by
              rw [eb_ok hmk]
              exact hlist2
            obtain ⟨c2, l2, p2, t2, ht2, hvt2, hvs2⟩ :=
              stage_out _ IH body st .If (some .BODY) parent room (linkOf tail)
                lineno sp.1 sp.2 hc (linkOf_cases ht) hok2
            have hs1 : spr.1 = sp.1 := by rw [← h12]
            have hs4 : spr.2.2.2 = sp.2 := by rw [← h12]
            rw [hs1, hs4]
            refine ⟨c2, l2, p2, ?_, ?_⟩
            · rw [ht2]
              exact tailOK_of_some hvt2 hvs2
            · rw [ht2]
              simp
      obtain ⟨hc4, hle4, hps4, hto4, hne4⟩ := hbp
      by_cases hoe : orelse.isEmpty
      · rw [if_pos hoe] at hrest
        obtain ⟨h1, h2⟩ : spr.1 = st' ∧ spr.2.2.2 = tail' := by
          cases hrest
          exact ⟨rfl, rfl⟩
        subst h1
        subst h2
        refine ⟨hc4, hle4, hps4, ?_⟩
        intro hne
        obtain ⟨t, htv⟩ := Option.ne_none_iff_exists'.mp (hne4 hne)
        obtain ⟨x1, x2⟩ := hto4 t htv
        exact ⟨t, htv, x1, x2⟩
      · rw [if_neg hoe] at hrest
        obtain ⟨si, hmk, hok6⟩ := eb_eq_ok.mp hrest
        obtain ⟨sp, hlist, hok7⟩ := eb_eq_ok.mp hok6
        rcases linkOf_cases hto4 with hnil | ⟨t, hnode, hvt, hvs⟩
        · rw [hnil] at hmk
          obtain ⟨a1, a2, a3, a4, a5, a6⟩ :=
            mk_nil_out spr.1 .If (some .ELSE) spr.2.1 spr.2.2.1 lineno
              si.1 si.2 hc4 hmk
          have hiA : si.2 < si.1.nodes.length := by
            rw [a2, a1]
            omega
          have hparA : ParentOK si.1 (some si.2) := by
            intro p hp
            cases hp
            exact hiA
          obtain ⟨d1, d2, d3, t2, ht2, hvt2, hvs2⟩ :=
            parseList_inv _ IH orelse (some si.2) (some si.2) si.2
              si.1 sp.1 sp.2 a5 hiA a4 hparA hlist
          by_cases hch : (getA sp.1 si.2).children.length > 0
          · rw [if_pos hch] at hok7
            obtain ⟨st8, hfix, hfin⟩ := eb_eq_ok.mp hok7
            obtain ⟨h1, h2⟩ : appendRoom st8 spr.2.2.1 si.2 = st' ∧ sp.2 = tail' := by
              cases hfin
              exact ⟨rfl, rfl⟩
            subst h1
            subst h2
            by_cases hcond : (getA sp.1 si.2).predecessor = .unset
            · rw [if_pos hcond, ht2] at hfix
              have hst8 : setSuccessor (setPredecessor sp.1 si.2 (linkOf (some t2)))
                  t2 (.node si.2) = st8 := by
                cases hfix
                rfl
              have hst8n : setSuccessor (setPredecessor sp.1 si.2 (Link.node t2))
                  t2 (.node si.2) = st8 := hst8
              obtain ⟨f1, f2, f3⟩ :=
                fixup_out sp.1 si.2 t2 d1 (lt_of_lt_of_le hiA d2) hvt2 hcond hvs2
              rw [hst8n] at f1 f2 f3
              obtain ⟨g1, g2, g3⟩ := appendRoom_pres st8 spr.2.2.1 si.2
              refine ⟨g1 f1, ?_, ?_, ?_⟩
              · rw [appendRoom_length, f3]
                calc st.nodes.length ≤ spr.1.nodes.length := hle4
                  _ ≤ si.1.nodes.length := by rw [a2]; omega
                  _ ≤ sp.1.nodes.length := d2
              · exact predStable_trans hps4 (predStable_trans a6
                  (predStable_trans d3 (predStable_trans f2 g3)))
              · intro hne
                exact absurd (linkOf_eq_nil hnil) (hne4 hne)
            · rw [if_neg hcond] at hfix
              have hst8 : sp.1 = st8 := by
                cases hfix
                rfl
              subst hst8
              obtain ⟨g1, g2, g3⟩ := appendRoom_pres sp.1 spr.2.2.1 si.2
              refine ⟨g1 d1, ?_, ?_, ?_⟩
              · rw [appendRoom_length]
                calc st.nodes.length ≤ spr.1.nodes.length := hle4
                  _ ≤ si.1.nodes.length := by rw [a2]; omega
                  _ ≤ sp.1.nodes.length := d2
              · exact predStable_trans hps4 (predStable_trans a6
                  (predStable_trans d3 g3))
              · intro _
                refine ⟨t2, ht2, ?_, ?_⟩
                · rw [appendRoom_length]
                  exact hvt2
                · rw [(appendRoom_links sp.1 spr.2.2.1 si.2 t2).1]
                  exact hvs2
          · rw [if_neg hch] at hok7
            obtain ⟨h1, h2⟩ : sp.1 = st' ∧ sp.2 = tail' := by
              cases hok7
              exact ⟨rfl, rfl⟩
            subst h1
            subst h2
            refine ⟨d1, ?_, ?_, ?_⟩
            · calc st.nodes.length ≤ spr.1.nodes.length := hle4
                _ ≤ si.1.nodes.length := by rw [a2]; omega
                _ ≤ sp.1.nodes.length := d2
            · exact predStable_trans hps4 (predStable_trans a6 d3)
            · intro _
              exact ⟨t2, ht2, hvt2, hvs2⟩
        · rw [hnode] at hmk
          obtain ⟨a1, a2, a3, a4, a4p, a5, a6⟩ :=
            mk_node_out spr.1 .If (some .ELSE) spr.2.1 spr.2.2.1 t lineno
              si.1 si.2 hc4 hvt hvs hmk
          have hiA : si.2 < si.1.nodes.length := by
            rw [a2, a1]
            omega
          have hparA : ParentOK si.1 (some si.2) := by
            intro p hp
            cases hp
            exact hiA
          obtain ⟨d1, d2, d3, t2, ht2, hvt2, hvs2⟩ :=
            parseList_inv _ IH orelse (some si.2) (some si.2) si.2
              si.1 sp.1 sp.2 a5 hiA a4 hparA hlist
          by_cases hch : (getA sp.1 si.2).children.length > 0
          · rw [if_pos hch] at hok7
            obtain ⟨st8, hfix, hfin⟩ := eb_eq_ok.mp hok7
            obtain ⟨h1, h2⟩ : appendRoom st8 spr.2.2.1 si.2 = st' ∧ sp.2 = tail' := by
              cases hfin
              exact ⟨rfl, rfl⟩
            subst h1
            subst h2
            have hcond : (getA sp.1 si.2).predecessor ≠ .unset := by
              rw [d3 si.2 t a4p]
              intro hcon
              cases hcon
            rw [if_neg hcond] at hfix
            have hst8 : sp.1 = st8 := by
              cases hfix
              rfl
            subst hst8
            obtain ⟨g1, g2, g3⟩ := appendRoom_pres sp.1 spr.2.2.1 si.2
            refine ⟨g1 d1, ?_, ?_, ?_⟩
            · rw [appendRoom_length]
              calc st.nodes.length ≤ spr.1.nodes.length := hle4
                _ ≤ si.1.nodes.length := by rw [a2]; omega
                _ ≤ sp.1.nodes.length := d2
            · exact predStable_trans hps4 (predStable_trans a6
                (predStable_trans d3 g3))
            · intro _
              refine ⟨t2, ht2, ?_, ?_⟩
              · rw [appendRoom_length]
                exact hvt2
              · rw [(appendRoom_links sp.1 spr.2.2.1 si.2 t2).1]
                exact hvs2
          · rw [if_neg hch] at hok7
            obtain ⟨h1, h2⟩ : sp.1 = st' ∧ sp.2 = tail' := by
              cases hok7
              exact ⟨rfl, rfl⟩
            subst h1
            subst h2
            refine ⟨d1, ?_, ?_, ?_⟩
            · calc st.nodes.length ≤ spr.1.nodes.length := hle4
                _ ≤ si.1.nodes.length := by rw [a2]; omega
                _ ≤ sp.1.nodes.length := d2
            · exact predStable_trans hps4 (predStable_trans a6 d3)
            · intro _
              exact ⟨t2, ht2, hvt2, hvs2⟩

theorem convInv_init : ConvInv initSt := by
  intro p n
  rw [getA, getD_oob initSt.nodes p (Nat.zero_le p),
    getA, getD_oob initSt.nodes n (Nat.zero_le n)]
  constructor
  · intro h
    simp [astoidDefault] at h
  · intro h
    simp [astoidDefault] at h

/-- C3: the clause builder detects the assignment of a second successor — a
clause created with a predecessor whose successor slot is already occupied
raises the fatal 'Multiple successors' error (astoid.py:182-191) — and in
the state produced by any successful run of the builder from the initial
state, the links are single: no two distinct nodes share a successor (each
node has at most one predecessor) and no two distinct nodes share a
predecessor (each node has at most one successor). -/
theorem C3_single_link_invariant :
    (∀ st k c par room p ln, (getA st p).successor ≠ .unset →
        mkAstoid st k c par room (.node p) ln = .error "Multiple successors")
    ∧ ∀ fuel lines a st' tail',
        _parse lines fuel a none none none initSt = .ok (st', tail') →
        (∀ p p' n, (getA st' p).successor = .node n →
            (getA st' p').successor = .node n → p = p')
        ∧ (∀ p n n', (getA st' n).predecessor = .node p →
            (getA st' n').predecessor = .node p → n = n') := by
  constructor
  · intro st k c par room p ln h
    exact mkAstoid_node_fail st k c par room p ln h
  · intro fuel lines a st' tail' h
    have hout := parse_inv fuel lines a none none none initSt st' tail'
      convInv_init (fun t ht => nomatch ht) (fun p hp => nomatch hp) h
    have hcv : ConvInv st' := hout.1
    constructor
    · intro p p' n h1 h2
      have e1 := (hcv p n).mp h1
      have e2 := (hcv p' n).mp h2
      rw [e1] at e2
      injection e2
    · intro p n n' h1 h2
      have e1 := (hcv p n).mpr h1
      have e2 := (hcv p n').mpr h2
      rw [e1] at e2
      injection e2

theorem C3_witness :
    ((getA (⟨[⟨.Stmt, none, none, none, [], .unset, .unset, .nil, .nil, 0⟩], []⟩ :
          ParseSt) 0).successor ≠ .unset
      ∧ mkAstoid ⟨[⟨.Stmt, none, none, none, [], .unset, .unset, .nil, .nil, 0⟩], []⟩
          .Stmt none none none (.node 0) 3 = .error "Multiple successors")
    ∧ ∃ sp, _parse ex1Lines 8 ex1Ast none none none initSt = .ok sp
        ∧ ∀ p p' n, (getA sp.1 p).successor = .node n →
            (getA sp.1 p').successor = .node n → p = p' := by
  constructor
  · constructor
    · decide
    · exact C3_single_link_invariant.1 _ .Stmt none none none 0 3 (by decide)
  · exact ⟨_, rfl, fun p p' n h1 h2 =>
      (C3_single_link_invariant.2 8 ex1Lines ex1Ast _ _ rfl).1 p p' n h1 h2⟩
